import Mathlib

/-!
Verification development for the Karmada `DistributionScorer` scheduler plugin
(`pkg/scheduler/framework/plugins/distributionscorer`).

The Go source is shallowly embedded as follows:

* `float64` metric values are modelled as `ℚ` (all arithmetic performed by the
  plugin on well-formed inputs is exact rational arithmetic, except for the one
  square root, which is modelled over `ℝ`);
* `int` / `int32` / `int64` values are modelled as `ℤ`;
* Go maps (`map[string]...`) are modelled as association lists with the lookup
  function `alookup` (first binding wins, missing key gives Go's zero value via
  `getD 0` at use sites);
* the possibly non-terminating bin-packing loop is modelled with explicit fuel,
  returning `none` exactly when the Go loop would spin forever;
* in-place mutation of a `Distribution`'s metric bag becomes a returned copy;
* the remote AHP HTTP call is abstracted as a function argument of type
  `DistributionAHPRequest → Except String DistributionAHPResponse` (an `error`
  return models an unreachable service, a non-200 status, or a decode failure).
-/

set_option allowUnsafeReducibility true
attribute [semireducible] Rat.add Rat.mul Rat.inv Rat.sub Rat.div Rat.neg Rat.ofScientific

namespace DistributionScorer

/-- Association-list lookup, modelling Go map indexing with a `, ok` flag
(`none` = key absent). -/
def alookup {α : Type} : List (String × α) → String → Option α
  | [], _ => none
  | p :: rest, k => if p.1 = k then some p.2 else alookup rest k

/-- Mirrors the Go struct `Distribution` from `distribution_types.go`:
an identifier such as `"(1,2,0)"`, a cluster-name → replica-count map and a
metric bag. -/
structure Distribution where
  id : String
  allocation : List (String × Int)
  metrics : List (String × ℚ)
deriving DecidableEq

/-- Mirrors the Go struct `ClusterMetrics` from `distribution_types.go`. -/
structure ClusterMetrics where
  name : String
  metrics : List (String × ℚ)
deriving DecidableEq

/-- Reads a metric value from a `ClusterMetrics` record; a missing key yields
Go's zero value `0`, exactly like `metrics.Metrics["key"]` on a Go map. -/
def mval (m : ClusterMetrics) (key : String) : ℚ :=
  (alookup m.metrics key).getD 0

/-- Go conversion `int64(f)` for `f : float64`: truncation toward zero. -/
def i64trunc (q : ℚ) : ℤ :=
  if 0 ≤ q then ⌊q⌋ else -⌊-q⌋

/-- Inner loop of `binPackNodes` (`calculate_metrics.go` lines 17-25): pack as
many replicas as fit under both ceilings onto the current node.  `slots` is the
number of replicas still unpacked (`remaining - fit` in the Go code), so the
loop is structurally terminating. -/
def fitOnNode (perReplicaCPU perReplicaMem nodeCPU nodeMem : ℚ) : ℕ → ℚ → ℚ → ℕ
  | 0, _, _ => 0
  | slots + 1, usedCPU, usedMem =>
    if nodeCPU < usedCPU + perReplicaCPU ∨ nodeMem < usedMem + perReplicaMem then 0
    else
      fitOnNode perReplicaCPU perReplicaMem nodeCPU nodeMem slots
        (usedCPU + perReplicaCPU) (usedMem + perReplicaMem) + 1

/-- Outer loop of `binPackNodes` (`calculate_metrics.go` lines 14-28) with
explicit fuel.  The Go loop `for remaining > 0` does not terminate when a round
packs zero replicas; running out of fuel (`none`) models that divergence. -/
def binPackAux (perReplicaCPU perReplicaMem nodeCPU nodeMem : ℚ) :
    ℕ → ℤ → ℤ → Option ℤ
  | 0, remaining, nodes => if remaining ≤ 0 then some nodes else none
  | fuel + 1, remaining, nodes =>
    if remaining ≤ 0 then some nodes
    else
      let fit := fitOnNode perReplicaCPU perReplicaMem nodeCPU nodeMem
        remaining.toNat 0 0
      binPackAux perReplicaCPU perReplicaMem nodeCPU nodeMem fuel
        (remaining - fit) (nodes + 1)

/-- Embeds `binPackNodes` from `calculate_metrics.go`: number of identical
worker nodes required for `replicaCount` identical replicas, greedy first-fit.
`replicaCount + 1` units of fuel suffice whenever each round packs at least one
replica, so `none` is returned exactly when the Go loop would never exit. -/
def binPackNodes (replicaCount : ℤ)
    (perReplicaCPU perReplicaMem nodeCPU nodeMem : ℚ) : Option ℤ :=
  binPackAux perReplicaCPU perReplicaMem nodeCPU nodeMem
    (replicaCount.toNat + 1) replicaCount 0

/-- Builds the `Distribution` literal constructed in the inner loop of
`GenerateAllDistributions`. -/
def mkDistribution (c0 c1 c2 : String) (i j k : ℕ) : Distribution :=
  { id := "(" ++ toString i ++ "," ++ toString j ++ "," ++ toString k ++ ")"
    allocation := [(c0, (i : Int)), (c1, (j : Int)), (c2, (k : Int))]
    metrics := [] }

/-- Embeds `GenerateAllDistributions` (src/unnamed/part_004).  The Go code
checks `totalReplicas < 0` first and then indexes `clusterNames[0]`,
`clusterNames[1]`, `clusterNames[2]` unconditionally; with fewer than three
names it panics, which is modelled by `none`.  Names beyond the first three are
ignored, exactly as in the source. -/
def generateAllDistributions (clusterNames : List String) (totalReplicas : Int) :
    Option (List Distribution) :=
  if totalReplicas < 0 then some []
  else
    match clusterNames with
    | c0 :: c1 :: c2 :: _ =>
      some ((List.range (totalReplicas.toNat + 1)).flatMap (fun i =>
        (List.range (totalReplicas.toNat - i + 1)).map (fun j =>
          mkDistribution c0 c1 c2 i j (totalReplicas.toNat - i - j))))
    | _ => none

/-- Replica count assigned by a distribution to a cluster; a missing key reads
as Go's zero value `0`. -/
def allocVal (dist : Distribution) (clusterName : String) : ℤ :=
  (alookup dist.allocation clusterName).getD 0

/-- Go `math.Floor(q*1000)/1000` (truncation of a non-negative value to three
decimal places; on ℚ this is exact). -/
def ratFloor3 (q : ℚ) : ℚ :=
  ((⌊q * 1000⌋ : ℤ) : ℚ) / 1000

/-- The variance computed inside `calculateStandardDeviation`
(`calculate_metrics.go` lines 228-249): population variance of the load
ratios, `0` for lists of length at most one.  The final `math.Sqrt` of the
source is applied separately (see `calculateStandardDeviation`), so that
everything up to the square root stays in exact rational arithmetic. -/
def calculateVariance (loadRatios : List ℚ) : ℚ :=
  if loadRatios.length ≤ 1 then 0
  else
    let meanLoadRatio := loadRatios.sum / (loadRatios.length : ℚ)
    ((loadRatios.map (fun v => (v - meanLoadRatio) * (v - meanLoadRatio))).sum) /
      (loadRatios.length : ℚ)

/-- Embeds `calculateStandardDeviation` (`calculate_metrics.go` lines 228-250):
population standard deviation of the load ratios.  For length ≤ 1 the source
returns `0` before computing anything; `Real.sqrt 0 = 0` makes the composition
with `calculateVariance` agree with that early return. -/
noncomputable def calculateStandardDeviation (loadRatios : List ℚ) : ℝ :=
  Real.sqrt ((calculateVariance loadRatios : ℚ) : ℝ)

/-- The list of normalized load ratios built by `calculateLoadBalanceStdDev`
(`calculate_metrics.go` lines 184-217): for every cluster in the metric map,
`replicaPercentage / capacityPercentage` where `capacityPercentage` is the
cluster's share of `max_worker_nodes * worker_cpu_capacity`. -/
def loadRatios (dist : Distribution) (clusterMetrics : List (String × ClusterMetrics))
    (totalReplicas : ℤ) : List ℚ :=
  let totalCPUCapacity := (clusterMetrics.map (fun p =>
    mval p.2 "max_worker_nodes" * mval p.2 "worker_cpu_capacity")).sum
  clusterMetrics.map (fun p =>
    let clusterCPUCapacity := mval p.2 "max_worker_nodes" * mval p.2 "worker_cpu_capacity"
    let capacityPercentage := clusterCPUCapacity / totalCPUCapacity
    let replicaPercentage := ((allocVal dist p.1 : ℤ) : ℚ) / (totalReplicas : ℚ)
    replicaPercentage / capacityPercentage)

/-- Embeds `calculateLoadBalanceStdDev` (`calculate_metrics.go` lines 175-224):
`0` when there are no replicas, otherwise the population standard deviation of
the normalized load ratios. -/
noncomputable def calculateLoadBalanceStdDev (dist : Distribution)
    (clusterMetrics : List (String × ClusterMetrics)) (totalReplicas : ℤ) : ℝ :=
  if totalReplicas = 0 then 0
  else calculateStandardDeviation (loadRatios dist clusterMetrics totalReplicas)

/-- Rational-valued companion of `calculateLoadBalanceStdDev`: the variance
before the square root is taken. -/
def calculateLoadBalanceVariance (dist : Distribution)
    (clusterMetrics : List (String × ClusterMetrics)) (totalReplicas : ℤ) : ℚ :=
  if totalReplicas = 0 then 0
  else calculateVariance (loadRatios dist clusterMetrics totalReplicas)

/-- Exact value of `math.Floor(math.Sqrt(v)*1000)/1000` for a non-negative
rational `v`, computed with integer square roots so that the metric bag stays
rational and executable.  The theorem `floorSqrt3_eq_floor_sqrt` proves that
this equals the floored real square root the Go source computes. -/
def floorSqrt3 (v : ℚ) : ℚ :=
  ((Nat.sqrt (Int.toNat ⌊(1000000 : ℚ) * v⌋) : ℕ) : ℚ) / 1000

/-- Embeds `calculateWeightedLatency` (`calculate_metrics.go` lines 254-280):
replica-weighted average latency (Go would produce NaN for zero total
replicas; on ℚ the division by zero yields 0, a case no claim depends on). -/
def calculateWeightedLatency (dist : Distribution)
    (clusterMetrics : List (String × ClusterMetrics)) : ℚ :=
  let totalReplicas : ℤ := (dist.allocation.map (fun p => p.2)).sum
  let totalLatencyWeight : ℚ := (dist.allocation.map (fun p =>
    if p.2 = 0 then 0
    else ((p.2 : ℤ) : ℚ) *
      mval ((alookup clusterMetrics p.1).getD ⟨"", []⟩) "latency")).sum
  totalLatencyWeight / ((totalReplicas : ℤ) : ℚ)

/-- Embeds `calculateUtilization` (`calculate_metrics.go` lines 136-170):
replica-weighted average of per-node packing utilization, truncated to three
decimal places. -/
def calculateUtilization (dist : Distribution)
    (clusterMetrics : List (String × ClusterMetrics))
    (cpuPerReplica memoryPerReplica : ℤ) (nodesByCluster : List (String × ℚ)) : ℚ :=
  let totalWeightedUtilization : ℚ := (dist.allocation.map (fun p =>
    if p.2 = 0 then 0
    else
      let metrics := (alookup clusterMetrics p.1).getD ⟨"", []⟩
      let workerCPUCapacity := mval metrics "worker_cpu_capacity"
      let workerMemoryCapacity := mval metrics "worker_memory_capacity"
      let nodesRequired := (alookup nodesByCluster p.1).getD 0
      let cpuUtil := ((p.2 : ℤ) : ℚ) * ((cpuPerReplica : ℤ) : ℚ) /
        (nodesRequired * workerCPUCapacity)
      let memUtil := ((p.2 : ℤ) : ℚ) * ((memoryPerReplica : ℤ) : ℚ) /
        (nodesRequired * workerMemoryCapacity)
      let packingUtil := (cpuUtil + memUtil) / 2
      packingUtil * ((p.2 : ℤ) : ℚ))).sum
  let totalReplicas : ℤ := (dist.allocation.map (fun p =>
    if p.2 = 0 then 0 else p.2)).sum
  if totalReplicas = 0 then 0
  else ratFloor3 (totalWeightedUtilization / ((totalReplicas : ℤ) : ℚ))

/-- Accumulator state of the per-cluster loop of
`CalculateDistributionMetrics` (`calculate_metrics.go` lines 39-43). -/
structure CalcState where
  totalPower : ℚ
  totalCost : ℚ
  totalReplicas : ℤ
  totalMaxNodes : ℚ
  nodesByCluster : List (String × ℚ)
deriving DecidableEq

/-- The per-cluster loop of `CalculateDistributionMetrics`
(`calculate_metrics.go` lines 45-106).  `some none` models `return false`
(infeasible), `none` models the divergence of an unguarded `binPackNodes`
call, `some (some st)` a completed loop. -/
def calcLoop (clusterMetrics : List (String × ClusterMetrics))
    (cpuPerReplica memoryPerReplica : ℤ) :
    List (String × ℤ) → CalcState → Option (Option CalcState)
  | [], st => some (some st)
  | (clusterName, replicaCount) :: rest, st =>
    let st1 : CalcState := { st with
      totalReplicas := st.totalReplicas + replicaCount
      totalMaxNodes := st.totalMaxNodes +
        mval ((alookup clusterMetrics clusterName).getD ⟨"", []⟩) "max_worker_nodes" }
    match alookup clusterMetrics clusterName with
    | none => some none
    | some metrics =>
      let st2 : CalcState := { st1 with
        totalPower := st1.totalPower + mval metrics "control_plane_power"
        totalCost := st1.totalCost + mval metrics "control_plane_cost" }
      if replicaCount = 0 then
        calcLoop clusterMetrics cpuPerReplica memoryPerReplica rest st2
      else
        let workerCPUCapacity := mval metrics "worker_cpu_capacity"
        let workerMemoryCapacity := mval metrics "worker_memory_capacity"
        let maxWorkerNodes := mval metrics "max_worker_nodes"
        if i64trunc workerCPUCapacity < cpuPerReplica ∨
            i64trunc workerMemoryCapacity < memoryPerReplica then
          some none
        else
          match binPackNodes replicaCount ((cpuPerReplica : ℤ) : ℚ)
              ((memoryPerReplica : ℤ) : ℚ) workerCPUCapacity workerMemoryCapacity with
          | none => none
          | some n =>
            let nodesRequired : ℚ := ((n : ℤ) : ℚ)
            if maxWorkerNodes < nodesRequired then some none
            else
              let st3 : CalcState := { st2 with
                nodesByCluster := (clusterName, nodesRequired) :: st2.nodesByCluster
                totalPower := st2.totalPower + mval metrics "worker_power" * nodesRequired
                totalCost := st2.totalCost + mval metrics "worker_cost" * nodesRequired }
              calcLoop clusterMetrics cpuPerReplica memoryPerReplica rest st3

/-- Embeds `CalculateDistributionMetrics` (`calculate_metrics.go` lines
34-133).  The Go function mutates `dist.Metrics` and returns a `bool`; here it
returns the (possibly updated) distribution next to that boolean, and `none`
models divergence of the bin packer.  Metric-bag writes become list conses in
source order; a lookup sees the most recent write first, matching Go map
assignment.  The stored `load_balance_std_dev` value
`math.Floor(math.Sqrt(variance)*1000)/1000` is written through the exact
rational `floorSqrt3` (see `floorSqrt3_eq_floor_sqrt`). -/
def CalculateDistributionMetrics (dist : Distribution)
    (clusterMetrics : List (String × ClusterMetrics))
    (cpuPerReplica memoryPerReplica : ℤ) : Option (Bool × Distribution) :=
  match calcLoop clusterMetrics cpuPerReplica memoryPerReplica dist.allocation
      ⟨0, 0, 0, 0, []⟩ with
  | none => none
  | some none => some (false, dist)
  | some (some st) =>
    let utilization := calculateUtilization dist clusterMetrics cpuPerReplica
      memoryPerReplica st.nodesByCluster
    let loadBalanceStored := floorSqrt3
      (calculateLoadBalanceVariance dist clusterMetrics st.totalReplicas)
    let weightedLatency := calculateWeightedLatency dist clusterMetrics
    let m0 : List (String × ℚ) :=
      ("weighted_latency", weightedLatency) ::
      ("load_balance_std_dev", loadBalanceStored) ::
      ("utilization", ratFloor3 utilization) ::
      ("cost", st.totalCost) ::
      ("power", st.totalPower) :: dist.metrics
    let m1 := st.nodesByCluster.foldl
      (fun m p => ("worker_nodes_" ++ p.1, p.2) :: m) m0
    some (true, { dist with metrics := m1 })

/-- Embeds the `hasZeroAllocations` scan of `NormalizeScore`
(`distributionscorer.go` lines 154-159). -/
def hasZeroAllocations (allocation : List (String × ℤ)) : Bool :=
  allocation.any (fun p => p.2 == 0)

/-- The weight-rewriting loop of `NormalizeScore` (`distributionscorer.go`
lines 161-178), iterating over the score-list cluster names and updating the
winner's allocation map in place (modelled by consing the new binding). -/
def applyWeights (hasZero : Bool) :
    List String → List (String × ℤ) → List (String × ℤ)
  | [], allocation => allocation
  | clusterName :: rest, allocation =>
    let replicaCount := (alookup allocation clusterName).getD 0
    let weight : ℤ :=
      if hasZero then (if 0 < replicaCount then replicaCount * 1000 else 1)
      else replicaCount
    applyWeights hasZero rest ((clusterName, weight) :: allocation)

/-- The complete weight-emission step of `NormalizeScore`
(`distributionscorer.go` lines 152-178): detect zero allocations on the
winner, then rewrite every cluster's weight. -/
def emitClusterWeights (clusterNames : List String)
    (allocation : List (String × ℤ)) : List (String × ℤ) :=
  applyWeights (hasZeroAllocations allocation) clusterNames allocation

/-- Mirrors the Go struct `DistributionScore` from `distribution_types.go`. -/
structure DistributionScore where
  id : String
  score : ℤ
deriving DecidableEq

/-- Mirrors the Go struct `DistributionAHPResponse` from
`distribution_types.go`. -/
structure DistributionAHPResponse where
  scores : List DistributionScore
deriving DecidableEq

/-- Mirrors the Go struct `CriteriaConfig` from `distribution_types.go`. -/
structure CriteriaConfig where
  higherIsBetter : Bool
  weight : ℚ
deriving DecidableEq

/-- Mirrors the Go struct `DistributionAHPRequest` from
`distribution_types.go`. -/
structure DistributionAHPRequest where
  distributions : List Distribution
  criteria : List (String × CriteriaConfig)
deriving DecidableEq

/-- The scanning loop of `FindBestDistribution` (`ahp.go` lines 50-66):
running best score (initially `-1`) and best distribution; an entry with a
strictly higher score replaces the best distribution by the first matching
distribution, or keeps the previous one when no id matches (the score is
updated regardless, as in the source). -/
def findBestLoop (distributions : List Distribution) :
    List DistributionScore → ℤ → Option Distribution → Option Distribution
  | [], _, bestDist => bestDist
  | distScore :: rest, bestScore, bestDist =>
    if bestScore < distScore.score then
      match distributions.find? (fun d => d.id == distScore.id) with
      | some d => findBestLoop distributions rest distScore.score (some d)
      | none => findBestLoop distributions rest distScore.score bestDist
    else findBestLoop distributions rest bestScore bestDist

/-- Embeds `FindBestDistribution` (`ahp.go` lines 44-67).  A `nil` response
pointer is modelled by `none`. -/
def FindBestDistribution (distributions : List Distribution)
    (scores : Option DistributionAHPResponse) : Option Distribution :=
  match scores with
  | none => none
  | some resp =>
    if resp.scores.isEmpty then none
    else findBestLoop distributions resp.scores (-1) none

/-- Embeds `getCriteriaForProfile` (`distributionscorer.go` lines 188-289). -/
def getCriteriaForProfile (profile : String) : List (String × CriteriaConfig) :=
  if profile = "power30" then
    [("power", ⟨false, 0.300⟩), ("cost", ⟨false, 0.175⟩),
     ("utilization", ⟨true, 0.175⟩), ("proportionality", ⟨false, 0.175⟩),
     ("weighted_latency", ⟨false, 0.175⟩)]
  else if profile = "power50" then
    [("power", ⟨false, 0.500⟩), ("cost", ⟨false, 0.125⟩),
     ("utilization", ⟨true, 0.125⟩), ("proportionality", ⟨false, 0.125⟩),
     ("weighted_latency", ⟨false, 0.125⟩)]
  else if profile = "cost30" then
    [("power", ⟨false, 0.175⟩), ("cost", ⟨false, 0.300⟩),
     ("utilization", ⟨true, 0.175⟩), ("proportionality", ⟨false, 0.175⟩),
     ("weighted_latency", ⟨false, 0.175⟩)]
  else if profile = "cost50" then
    [("power", ⟨false, 0.125⟩), ("cost", ⟨false, 0.500⟩),
     ("utilization", ⟨true, 0.125⟩), ("proportionality", ⟨false, 0.125⟩),
     ("weighted_latency", ⟨false, 0.125⟩)]
  else if profile = "latency30" then
    [("power", ⟨false, 0.175⟩), ("cost", ⟨false, 0.175⟩),
     ("utilization", ⟨true, 0.175⟩), ("proportionality", ⟨false, 0.175⟩),
     ("weighted_latency", ⟨false, 0.300⟩)]
  else if profile = "latency50" then
    [("power", ⟨false, 0.125⟩), ("cost", ⟨false, 0.125⟩),
     ("utilization", ⟨true, 0.125⟩), ("proportionality", ⟨false, 0.125⟩),
     ("weighted_latency", ⟨false, 0.500⟩)]
  else if profile = "utilization30" then
    [("power", ⟨false, 0.175⟩), ("cost", ⟨false, 0.175⟩),
     ("utilization", ⟨true, 0.300⟩), ("proportionality", ⟨false, 0.175⟩),
     ("weighted_latency", ⟨false, 0.175⟩)]
  else if profile = "utilization50" then
    [("power", ⟨false, 0.125⟩), ("cost", ⟨false, 0.125⟩),
     ("utilization", ⟨true, 0.500⟩), ("proportionality", ⟨false, 0.125⟩),
     ("weighted_latency", ⟨false, 0.125⟩)]
  else if profile = "proportionality30" then
    [("power", ⟨false, 0.175⟩), ("cost", ⟨false, 0.175⟩),
     ("utilization", ⟨true, 0.175⟩), ("proportionality", ⟨false, 0.300⟩),
     ("weighted_latency", ⟨false, 0.175⟩)]
  else if profile = "proportionality50" then
    [("power", ⟨false, 0.125⟩), ("cost", ⟨false, 0.125⟩),
     ("utilization", ⟨true, 0.125⟩), ("proportionality", ⟨false, 0.500⟩),
     ("weighted_latency", ⟨false, 0.125⟩)]
  else
    [("power", ⟨false, 0.20⟩), ("cost", ⟨false, 0.20⟩),
     ("utilization", ⟨true, 0.20⟩), ("proportionality", ⟨false, 0.20⟩),
     ("weighted_latency", ⟨false, 0.20⟩)]

/-- The scheduler framework result codes relevant to the plugin
(`framework.Success` / `framework.Error`). -/
inductive FrameworkResult where
  | Success
  | Error
deriving DecidableEq

/-- The feasibility-filter loop of `NormalizeScore` (`distributionscorer.go`
lines 117-122): keep the distributions accepted by
`CalculateDistributionMetrics` (with their freshly written metric bags);
`none` propagates a diverging metric evaluation. -/
def filterFeasible (clusterMetrics : List (String × ClusterMetrics))
    (cpuPerReplica memoryPerReplica : ℤ) :
    List Distribution → Option (List Distribution)
  | [] => some []
  | d :: rest =>
    match CalculateDistributionMetrics d clusterMetrics cpuPerReplica memoryPerReplica with
    | none => none
    | some (true, d') =>
      (filterFeasible clusterMetrics cpuPerReplica memoryPerReplica rest).map
        (fun l => d' :: l)
    | some (false, _) =>
      filterFeasible clusterMetrics cpuPerReplica memoryPerReplica rest

/-- The profile selected in the source (`distributionscorer.go` line 18). -/
def selectedProfile : String := "balance"

/-- Embeds `NormalizeScore` (`distributionscorer.go` lines 78-186).  The
cluster names and metric map collected from the score list are passed in
directly; the remote AHP call is abstracted by the function argument `ahp`
(`Except.error` models an unreachable server, a non-200 status or a decode
failure).  The returned pair is the framework result code together with the
per-cluster weights handed to the asynchronous publisher (`none` when no
weights are produced); the outer `Option` models divergence of the metric
loop. -/
def NormalizeScoreModel (clusterNames : List String)
    (clusterMetrics : List (String × ClusterMetrics))
    (totalReplicas cpuPerReplica memoryPerReplica : ℤ)
    (ahp : DistributionAHPRequest → Except String DistributionAHPResponse) :
    Option (FrameworkResult × Option (List (String × ℤ))) :=
  if totalReplicas ≤ 0 then some (FrameworkResult.Success, none)
  else
    match generateAllDistributions clusterNames totalReplicas with
    | none => none
    | some distributions =>
      match filterFeasible clusterMetrics cpuPerReplica memoryPerReplica distributions with
      | none => none
      | some feasibleDistributions =>
        if feasibleDistributions.isEmpty then some (FrameworkResult.Error, none)
        else
          match ahp ⟨feasibleDistributions, getCriteriaForProfile selectedProfile⟩ with
          | Except.error _ => some (FrameworkResult.Error, none)
          | Except.ok ahpResponse =>
            match FindBestDistribution feasibleDistributions (some ahpResponse) with
            | none => some (FrameworkResult.Error, none)
            | some bestDist =>
              some (FrameworkResult.Success,
                some (emitClusterWeights clusterNames bestDist.allocation))

/-! ### Association-list helper lemmas -/

theorem alookup_mem {α : Type} {l : List (String × α)} {k : String} {v : α}
    (h : alookup l k = some v) : (k, v) ∈ l := by
  induction l with
  | nil => simp [alookup] at h
  | cons p rest ih =>
    simp only [alookup] at h
    split at h
    · rename_i hk
      cases h
      cases p
      cases hk
      exact List.mem_cons_self _ _
    · exact List.mem_cons_of_mem _ (ih h)

/-! ### Bin-packer lemmas -/

theorem fitOnNode_zero_eq (cpuR memR nodeCPU nodeMem : ℚ) (u v : ℚ) :
    fitOnNode cpuR memR nodeCPU nodeMem 0 u v = 0 := rfl

theorem fitOnNode_succ_eq (cpuR memR nodeCPU nodeMem : ℚ) (slots : ℕ) (u v : ℚ) :
    fitOnNode cpuR memR nodeCPU nodeMem (slots + 1) u v =
      if nodeCPU < u + cpuR ∨ nodeMem < v + memR then 0
      else fitOnNode cpuR memR nodeCPU nodeMem slots (u + cpuR) (v + memR) + 1 := rfl

theorem fitOnNode_le (cpuR memR nodeCPU nodeMem : ℚ) :
    ∀ (slots : ℕ) (u v : ℚ), fitOnNode cpuR memR nodeCPU nodeMem slots u v ≤ slots := by
  intro slots
  induction slots with
  | zero => intro u v; simp [fitOnNode]
  | succ s ih =>
    intro u v
    simp only [fitOnNode]
    split
    · omega
    · have := ih (u + cpuR) (v + memR)
      omega

theorem fitOnNode_succ_le (cpuR memR nodeCPU nodeMem : ℚ) :
    ∀ (slots : ℕ) (u v : ℚ),
      fitOnNode cpuR memR nodeCPU nodeMem (slots + 1) u v ≤
        fitOnNode cpuR memR nodeCPU nodeMem slots u v + 1 := by
  intro slots
  induction slots with
  | zero =>
    intro u v
    rw [fitOnNode_succ_eq, fitOnNode_zero_eq]
    split <;> simp [fitOnNode_zero_eq]
  | succ s ih =>
    intro u v
    rw [fitOnNode_succ_eq cpuR memR nodeCPU nodeMem (s + 1) u v,
      fitOnNode_succ_eq cpuR memR nodeCPU nodeMem s u v]
    by_cases hc : nodeCPU < u + cpuR ∨ nodeMem < v + memR
    · simp [hc]
    · rw [if_neg hc, if_neg hc]
      have := ih (u + cpuR) (v + memR)
      omega

theorem fitOnNode_le_succ (cpuR memR nodeCPU nodeMem : ℚ) :
    ∀ (slots : ℕ) (u v : ℚ),
      fitOnNode cpuR memR nodeCPU nodeMem slots u v ≤
        fitOnNode cpuR memR nodeCPU nodeMem (slots + 1) u v := by
  intro slots
  induction slots with
  | zero => intro u v; simp [fitOnNode_zero_eq]
  | succ s ih =>
    intro u v
    rw [fitOnNode_succ_eq cpuR memR nodeCPU nodeMem (s + 1) u v,
      fitOnNode_succ_eq cpuR memR nodeCPU nodeMem s u v]
    by_cases hc : nodeCPU < u + cpuR ∨ nodeMem < v + memR
    · simp [hc]
    · rw [if_neg hc, if_neg hc]
      have := ih (u + cpuR) (v + memR)
      omega

theorem fitOnNode_mono (cpuR memR nodeCPU nodeMem : ℚ) {s1 s2 : ℕ} (u v : ℚ)
    (h : s1 ≤ s2) :
    fitOnNode cpuR memR nodeCPU nodeMem s1 u v ≤
      fitOnNode cpuR memR nodeCPU nodeMem s2 u v := by
  induction s2, h using Nat.le_induction with
  | base => exact le_rfl
  | succ n hn ih => exact ih.trans (fitOnNode_le_succ cpuR memR nodeCPU nodeMem n u v)

theorem fitOnNode_sub_mono (cpuR memR nodeCPU nodeMem : ℚ) {s1 s2 : ℕ} (u v : ℚ)
    (h : s1 ≤ s2) :
    s1 - fitOnNode cpuR memR nodeCPU nodeMem s1 u v ≤
      s2 - fitOnNode cpuR memR nodeCPU nodeMem s2 u v := by
  induction s2, h using Nat.le_induction with
  | base => exact le_rfl
  | succ n hn ih =>
    have h1 := fitOnNode_succ_le cpuR memR nodeCPU nodeMem n u v
    have h2 := fitOnNode_le cpuR memR nodeCPU nodeMem n u v
    omega

theorem fitOnNode_pos (cpuR memR nodeCPU nodeMem : ℚ)
    (h1 : cpuR ≤ nodeCPU) (h2 : memR ≤ nodeMem) (slots : ℕ) (hs : 0 < slots) :
    0 < fitOnNode cpuR memR nodeCPU nodeMem slots 0 0 := by
  obtain ⟨s, rfl⟩ : ∃ s, slots = s + 1 := ⟨slots - 1, by omega⟩
  have hc : ¬(nodeCPU < 0 + cpuR ∨ nodeMem < 0 + memR) := by
    push_neg
    constructor <;> linarith
  simp only [fitOnNode, if_neg hc]
  omega

theorem binPackAux_le (cpuR memR nodeCPU nodeMem : ℚ) :
    ∀ (fuel : ℕ) (r n a : ℤ),
      binPackAux cpuR memR nodeCPU nodeMem fuel r n = some a → n ≤ a := by
  intro fuel
  induction fuel with
  | zero =>
    intro r n a h
    simp only [binPackAux] at h
    split at h
    · cases h; exact le_rfl
    · cases h
  | succ f ih =>
    intro r n a h
    simp only [binPackAux] at h
    split at h
    · cases h; exact le_rfl
    · have := ih _ _ _ h
      omega

theorem binPackAux_fuel_mono (cpuR memR nodeCPU nodeMem : ℚ) :
    ∀ (fuel fuel' : ℕ) (r n a : ℤ), fuel ≤ fuel' →
      binPackAux cpuR memR nodeCPU nodeMem fuel r n = some a →
      binPackAux cpuR memR nodeCPU nodeMem fuel' r n = some a := by
  intro fuel
  induction fuel with
  | zero =>
    intro fuel' r n a _ h
    simp only [binPackAux] at h
    split at h
    · cases h
      rename_i hr
      cases fuel' <;> simp [binPackAux, hr]
    · cases h
  | succ f ih =>
    intro fuel' r n a hle h
    simp only [binPackAux] at h
    split at h
    · cases h
      rename_i hr
      cases fuel' <;> simp [binPackAux, hr]
    · rename_i hr
      obtain ⟨f', rfl⟩ : ∃ f', fuel' = f' + 1 := ⟨fuel' - 1, by omega⟩
      simp only [binPackAux, if_neg hr]
      exact ih f' _ _ _ (by omega) h

theorem binPackAux_rem_mono (cpuR memR nodeCPU nodeMem : ℚ) :
    ∀ (fuel : ℕ) (r1 r2 n a b : ℤ), r1 ≤ r2 →
      binPackAux cpuR memR nodeCPU nodeMem fuel r1 n = some a →
      binPackAux cpuR memR nodeCPU nodeMem fuel r2 n = some b → a ≤ b := by
  intro fuel
  induction fuel with
  | zero =>
    intro r1 r2 n a b _ h1 h2
    simp only [binPackAux] at h1 h2
    split at h1
    · cases h1
      split at h2
      · cases h2; exact le_rfl
      · cases h2
    · cases h1
  | succ f ih =>
    intro r1 r2 n a b hr h1 h2
    simp only [binPackAux] at h1 h2
    split at h1
    · cases h1
      split at h2
      · cases h2; exact le_rfl
      · have := binPackAux_le cpuR memR nodeCPU nodeMem f _ _ _ h2
        omega
    · rename_i hr1
      have hr2 : ¬ r2 ≤ 0 := by omega
      rw [if_neg hr2] at h2
      refine ih _ _ _ _ _ ?_ h1 h2
      have ht : r1.toNat ≤ r2.toNat := by omega
      have hle1 := fitOnNode_le cpuR memR nodeCPU nodeMem r1.toNat 0 0
      have hle2 := fitOnNode_le cpuR memR nodeCPU nodeMem r2.toNat 0 0
      have hsub := fitOnNode_sub_mono cpuR memR nodeCPU nodeMem (0 : ℚ) (0 : ℚ) ht
      omega

theorem binPackAux_total (cpuR memR nodeCPU nodeMem : ℚ)
    (h1 : cpuR ≤ nodeCPU) (h2 : memR ≤ nodeMem) :
    ∀ (fuel : ℕ) (r n : ℤ), r ≤ (fuel : ℤ) →
      ∃ a, binPackAux cpuR memR nodeCPU nodeMem fuel r n = some a ∧
        a ≤ n + max r 0 := by
  intro fuel
  induction fuel with
  | zero =>
    intro r n hr
    refine ⟨n, ?_, by omega⟩
    simp only [Nat.cast_zero] at hr
    simp [binPackAux, hr]
  | succ f ih =>
    intro r n hr
    by_cases hr0 : r ≤ 0
    · exact ⟨n, by simp [binPackAux, hr0], by omega⟩
    · have hfit : 0 < fitOnNode cpuR memR nodeCPU nodeMem r.toNat 0 0 :=
        fitOnNode_pos cpuR memR nodeCPU nodeMem h1 h2 _ (by omega)
      have hfle := fitOnNode_le cpuR memR nodeCPU nodeMem r.toNat 0 0
      obtain ⟨a, ha, hab⟩ := ih (r - fitOnNode cpuR memR nodeCPU nodeMem r.toNat 0 0)
        (n + 1) (by omega)
      refine ⟨a, ?_, by omega⟩
      simp only [binPackAux, if_neg hr0]
      exact ha

theorem binPackNodes_isSome_of_fits (cpuR memR nodeCPU nodeMem : ℚ) (r : ℤ)
    (h1 : cpuR ≤ nodeCPU) (h2 : memR ≤ nodeMem) :
    ∃ a, binPackNodes r cpuR memR nodeCPU nodeMem = some a ∧ a ≤ max r 0 := by
  obtain ⟨a, ha, hab⟩ := binPackAux_total cpuR memR nodeCPU nodeMem h1 h2
    (r.toNat + 1) r 0 (by omega)
  exact ⟨a, ha, by omega⟩

theorem i64trunc_guard {cap : ℚ} {x : ℤ} (hcap : 0 ≤ cap)
    (h : ¬ i64trunc cap < x) : (x : ℚ) ≤ cap := by
  rw [i64trunc, if_pos hcap] at h
  have : x ≤ ⌊cap⌋ := by omega
  exact_mod_cast (Int.le_floor.mp this)

theorem calcLoop_isSome (M : List (String × ClusterMetrics)) (cpuR memR : ℤ)
    (hM : ∀ p ∈ M, 0 ≤ mval p.2 "worker_cpu_capacity" ∧
      0 ≤ mval p.2 "worker_memory_capacity") :
    ∀ (entries : List (String × ℤ)) (st : CalcState),
      (calcLoop M cpuR memR entries st).isSome = true := by
  intro entries
  induction entries with
  | nil => intro st; simp [calcLoop]
  | cons e rest ih =>
    intro st
    obtain ⟨c, r⟩ := e
    simp only [calcLoop]
    cases hm : alookup M c with
    | none => simp
    | some met =>
      simp only
      by_cases hr : r = 0
      · simp only [if_pos hr]
        exact ih _
      · rw [if_neg hr]
        by_cases hg : i64trunc (mval met "worker_cpu_capacity") < cpuR ∨
            i64trunc (mval met "worker_memory_capacity") < memR
        · simp [hg]
        · rw [if_neg hg]
          have hcap := hM _ (alookup_mem hm)
          push_neg at hg
          have h1 : ((cpuR : ℤ) : ℚ) ≤ mval met "worker_cpu_capacity" :=
            i64trunc_guard hcap.1 (by omega)
          have h2 : ((memR : ℤ) : ℚ) ≤ mval met "worker_memory_capacity" :=
            i64trunc_guard hcap.2 (by omega)
          obtain ⟨n, hn, _⟩ := binPackNodes_isSome_of_fits _ _ _ _ r h1 h2
          simp only [hn]
          by_cases hmax : mval met "max_worker_nodes" < ((n : ℤ) : ℚ)
          · simp [hmax]
          · rw [if_neg hmax]
            exact ih _

/-! ### Reference cluster data (the `edge`/`fog`/`cloud` deployment labels) -/

def edgeMetrics : ClusterMetrics :=
  ⟨"edge", [("worker_cpu_capacity", 2000), ("worker_memory_capacity", 4294967296),
    ("control_plane_power", 40), ("control_plane_cost", 60), ("worker_power", 40),
    ("worker_cost", 60), ("max_worker_nodes", 4), ("latency", 10)]⟩

def fogMetrics : ClusterMetrics :=
  ⟨"fog", [("worker_cpu_capacity", 4000), ("worker_memory_capacity", 8589934592),
    ("control_plane_power", 30), ("control_plane_cost", 45), ("worker_power", 70),
    ("worker_cost", 100), ("max_worker_nodes", 8), ("latency", 25)]⟩

def cloudMetrics : ClusterMetrics :=
  ⟨"cloud", [("worker_cpu_capacity", 8000), ("worker_memory_capacity", 17179869184),
    ("control_plane_power", 15), ("control_plane_cost", 30), ("worker_power", 100),
    ("worker_cost", 140), ("max_worker_nodes", 16), ("latency", 50)]⟩

def refClusterMetrics : List (String × ClusterMetrics) :=
  [("edge", edgeMetrics), ("fog", fogMetrics), ("cloud", cloudMetrics)]

/-! ### Claim C6: bin-packer termination and guarding -/

/-- C6: `binPackNodes` terminates (returns a value rather than exhausting its
fuel) for every `r ≥ 0` whenever a single replica fits; the call-site guard of
`CalculateDistributionMetrics` (the `int64`-truncated capacity comparison, for
non-negative capacities) implies that a single replica fits; and consequently
`CalculateDistributionMetrics` never diverges on metric maps with non-negative
worker capacities. -/
theorem claim_C6_binpack_termination :
    (∀ (cpuR memR nodeCPU nodeMem : ℚ) (r : ℤ), 0 ≤ r →
      cpuR ≤ nodeCPU → memR ≤ nodeMem →
      (binPackNodes r cpuR memR nodeCPU nodeMem).isSome = true) ∧
    (∀ (capCpu capMem : ℚ) (cpuR memR : ℤ), 0 ≤ capCpu → 0 ≤ capMem →
      ¬(i64trunc capCpu < cpuR ∨ i64trunc capMem < memR) →
      (cpuR : ℚ) ≤ capCpu ∧ (memR : ℚ) ≤ capMem) ∧
    (∀ (dist : Distribution) (M : List (String × ClusterMetrics)) (cpuR memR : ℤ),
      (∀ p ∈ M, 0 ≤ mval p.2 "worker_cpu_capacity" ∧
        0 ≤ mval p.2 "worker_memory_capacity") →
      (CalculateDistributionMetrics dist M cpuR memR).isSome = true) := by
  refine ⟨?_, ?_, ?_⟩
  · intro cpuR memR nodeCPU nodeMem r _ h1 h2
    obtain ⟨a, ha, -⟩ := binPackNodes_isSome_of_fits cpuR memR nodeCPU nodeMem r h1 h2
    simp [ha]
  · intro capCpu capMem cpuR memR hc hm hg
    push_neg at hg
    exact ⟨i64trunc_guard hc (by omega), i64trunc_guard hm (by omega)⟩
  · intro dist M cpuR memR hM
    have h := calcLoop_isSome M cpuR memR hM dist.allocation ⟨0, 0, 0, 0, []⟩
    rw [CalculateDistributionMetrics]
    cases hres : calcLoop M cpuR memR dist.allocation ⟨0, 0, 0, 0, []⟩ with
    | none => rw [hres] at h; simp at h
    | some o => cases o <;> simp

/-- Witness for C6 at the reference deployment: a fitting call terminates, the
guard at the call site implies a replica fits, and metric calculation on the
reference clusters is total. -/
theorem claim_C6_binpack_termination_witness :
    (binPackNodes 4 3000 2147483648 4000 8589934592).isSome = true ∧
    (((2500 : ℤ) : ℚ) ≤ 4000 ∧ ((2147483648 : ℤ) : ℚ) ≤ 8589934592) ∧
    (CalculateDistributionMetrics
      ⟨"(1,1,0)", [("edge", 1), ("fog", 1), ("cloud", 0)], []⟩
      refClusterMetrics 1000 1073741824).isSome = true := by
  refine ⟨?_, ?_, ?_⟩
  · exact claim_C6_binpack_termination.1 3000 2147483648 4000 8589934592 4
      (by decide) (by decide) (by decide)
  · exact claim_C6_binpack_termination.2.1 4000 8589934592 2500 2147483648
      (by decide) (by decide) (by decide)
  · exact claim_C6_binpack_termination.2.2
      ⟨"(1,1,0)", [("edge", 1), ("fog", 1), ("cloud", 0)], []⟩
      refClusterMetrics 1000 1073741824 (by decide)

/-! ### Claim C7: bin-packer bounds -/

/-- C7: for every capacity pair and per-replica demand, `binPackNodes`
satisfies `nodes 0 = 0`, is monotone in the replica count (on defined values),
and `nodes r ≤ r` whenever a single replica fits. -/
theorem claim_C7_binpack_bounds (cpuR memR nodeCPU nodeMem : ℚ) :
    binPackNodes 0 cpuR memR nodeCPU nodeMem = some 0 ∧
    (∀ r a b : ℤ, 0 ≤ r →
      binPackNodes r cpuR memR nodeCPU nodeMem = some a →
      binPackNodes (r + 1) cpuR memR nodeCPU nodeMem = some b → a ≤ b) ∧
    (cpuR ≤ nodeCPU → memR ≤ nodeMem → ∀ r : ℤ, 0 ≤ r →
      ∃ a, binPackNodes r cpuR memR nodeCPU nodeMem = some a ∧ a ≤ r) := by
  refine ⟨rfl, ?_, ?_⟩
  · intro r a b hr ha hb
    rw [binPackNodes] at ha hb
    have ht : (r + 1).toNat = r.toNat + 1 := by omega
    rw [ht] at hb
    have ha' := binPackAux_fuel_mono cpuR memR nodeCPU nodeMem
      (r.toNat + 1) (r.toNat + 1 + 1) r 0 a (by omega) ha
    exact binPackAux_rem_mono cpuR memR nodeCPU nodeMem (r.toNat + 1 + 1)
      r (r + 1) 0 a b (by omega) ha' hb
  · intro h1 h2 r hr
    obtain ⟨a, ha, hab⟩ := binPackNodes_isSome_of_fits cpuR memR nodeCPU nodeMem r h1 h2
    exact ⟨a, ha, by omega⟩

/-- Witness for C7: the Scenario 3 bin-packing instance (`fog` node, 3000
millicores and 2 GiB per replica, 4 replicas) needs exactly 4 nodes, is
monotone from 4 to 5 replicas, and is bounded by the replica count. -/
theorem claim_C7_binpack_bounds_witness :
    binPackNodes 4 3000 2147483648 4000 8589934592 = some 4 ∧
    (4 : ℤ) ≤ 5 ∧
    (∃ a, binPackNodes 4 3000 2147483648 4000 8589934592 = some a ∧ a ≤ 4) := by
  refine ⟨by decide, ?_, ?_⟩
  · exact (claim_C7_binpack_bounds 3000 2147483648 4000 8589934592).2.1 4 4 5
      (by decide) (by decide) (by decide)
  · exact (claim_C7_binpack_bounds 3000 2147483648 4000 8589934592).2.2
      (by decide) (by decide) 4 (by decide)

/-! ### Claim C2: the allocation enumerator -/

/-- Triple of replica counts a distribution assigns to three given cluster
names (missing keys read as 0, as in a Go map). -/
def allocTriple (a b c : String) (d : Distribution) : ℤ × ℤ × ℤ :=
  (allocVal d a, allocVal d b, allocVal d c)

theorem allocTriple_mk {a b c : String} (hab : a ≠ b) (hac : a ≠ c) (hbc : b ≠ c)
    (i j k : ℕ) :
    allocTriple a b c (mkDistribution a b c i j k) = ((i : ℤ), (j : ℤ), (k : ℤ)) := by
  simp [allocTriple, allocVal, mkDistribution, alookup, hab, hac, hbc]

/-- C2 counterexample: with four cluster names and one replica the claim
demands the four unit vectors over the four clusters, but
`GenerateAllDistributions` indexes only the first three names: it yields just
three allocations, and none of them assigns the fourth cluster (`"d"`) a
replica. -/
theorem claim_C2_counterexample :
    ((generateAllDistributions ["a", "b", "c", "d"] 1).map
      (fun L => (L.length, L.all (fun d => decide (allocVal d "d" = 0))))) =
      some (3, true) := by
  decide

/-- C2 (amended): for a sequence of at least three cluster names whose first
three names are distinct, and any integer `N`, the enumerator succeeds;
`N < 0` yields the empty list, `N = 0` the single all-zeros allocation over
the first three clusters, every emitted allocation sums to `N`, and the triples
of replica counts over the first three clusters are exactly the non-negative
integer vectors summing to `N`, each exactly once.  (The original claim is
false for sequences of length ≠ 3, see `claim_C2_counterexample`: the source
enumerator is hard-coded to the first three cluster names and panics on fewer
than three.) -/
theorem claim_C2_enumerator (a b c : String) (rest : List String)
    (hab : a ≠ b) (hac : a ≠ c) (hbc : b ≠ c) (N : ℤ) :
    ∃ L, generateAllDistributions (a :: b :: c :: rest) N = some L ∧
      (N < 0 → L = []) ∧
      (N = 0 → L = [mkDistribution a b c 0 0 0]) ∧
      (0 ≤ N → ∀ d ∈ L, (d.allocation.map Prod.snd).sum = N) ∧
      (L.map (allocTriple a b c)).Nodup ∧
      (0 ≤ N → ∀ v : ℤ × ℤ × ℤ,
        v ∈ L.map (allocTriple a b c) ↔
          0 ≤ v.1 ∧ 0 ≤ v.2.1 ∧ 0 ≤ v.2.2 ∧ v.1 + v.2.1 + v.2.2 = N) := by
  by_cases hN : N < 0
  · refine ⟨[], ?_, fun _ => rfl, fun h0 => absurd h0 (by omega), ?_, ?_, ?_⟩
    · unfold generateAllDistributions
      rw [if_pos hN]
    · intro h0
      exact absurd h0 (by omega)
    · simp
    · intro h0
      exact absurd h0 (by omega)
  · have h0N : 0 ≤ N := by omega
    refine ⟨(List.range (N.toNat + 1)).flatMap (fun i =>
      (List.range (N.toNat - i + 1)).map
        (fun j => mkDistribution a b c i j (N.toNat - i - j))), ?_, ?_, ?_, ?_, ?_, ?_⟩
    · unfold generateAllDistributions
      rw [if_neg hN]
    · intro h0
      exact absurd h0 hN
    · intro h0
      have ht : N.toNat = 0 := by omega
      rw [ht]
      rfl
    · intro _ d hd
      simp only [List.mem_flatMap, List.mem_range, List.mem_map] at hd
      obtain ⟨i, hi, j, hj, rfl⟩ := hd
      simp only [mkDistribution, List.map_cons, List.map_nil, List.sum_cons, List.sum_nil]
      omega
    · rw [List.map_flatMap]
      rw [List.nodup_flatMap]
      constructor
      · intro i _
        rw [List.map_map]
        refine List.Nodup.map ?_ (List.nodup_range _)
        intro j1 j2 hj
        have := congrArg (fun v : ℤ × ℤ × ℤ => v.2.1) hj
        simp only [Function.comp, allocTriple_mk hab hac hbc] at this
        exact_mod_cast this
      · refine (List.pairwise_lt_range _).imp ?_
        intro i1 i2 hlt
        intro v hv1 hv2
        simp only [List.map_map, List.mem_map, List.mem_range, Function.comp,
          allocTriple_mk hab hac hbc] at hv1 hv2
        obtain ⟨j1, -, rfl⟩ := hv1
        obtain ⟨j2, -, h12⟩ := hv2
        have := congrArg (fun v : ℤ × ℤ × ℤ => v.1) h12
        simp only at this
        have : i2 = i1 := by exact_mod_cast this
        omega
    · intro _ v
      rw [List.map_flatMap]
      simp only [List.mem_flatMap, List.mem_range, List.map_map, List.mem_map,
        Function.comp, allocTriple_mk hab hac hbc]
      constructor
      · rintro ⟨i, hi, j, hj, rfl⟩
        refine ⟨by positivity, by positivity, by positivity, ?_⟩
        push_cast
        omega
      · rintro ⟨h1, h2, h3, h4⟩
        obtain ⟨x, y, z⟩ := v
        dsimp only at h1 h2 h3 h4
        refine ⟨x.toNat, by omega, y.toNat, by omega, ?_⟩
        simp only [Prod.mk.injEq]
        refine ⟨by omega, by omega, by omega⟩

/-- Witness for C2 (amended) at the Scenario 1 instance: three clusters,
`N = 2`; the enumeration contains the vector `(0,1,1)`. -/
theorem claim_C2_enumerator_witness :
    ∃ L, generateAllDistributions ["a", "b", "c"] 2 = some L ∧
      ((0 : ℤ), (1 : ℤ), (1 : ℤ)) ∈ L.map (allocTriple "a" "b" "c") := by
  obtain ⟨L, hL, -, -, -, -, hmem⟩ :=
    claim_C2_enumerator "a" "b" "c" [] (by decide) (by decide) (by decide) 2
  exact ⟨L, hL, (hmem (by decide) ((0 : ℤ), (1 : ℤ), (1 : ℤ))).mpr (by decide)⟩

/-! ### Claim C10: rejection atomicity -/

/-- C10: whenever `CalculateDistributionMetrics` rejects an allocation
(returns `false`), the distribution comes back untouched: no metric key has
been written.  In the source all metric-bag writes sit after the feasibility
loop, so every `return false` leaves the bag unmodified. -/
theorem claim_C10_rejection_atomicity (dist : Distribution)
    (M : List (String × ClusterMetrics)) (cpuR memR : ℤ) (d' : Distribution)
    (h : CalculateDistributionMetrics dist M cpuR memR = some (false, d')) :
    d' = dist ∧ d'.metrics = dist.metrics := by
  rw [CalculateDistributionMetrics] at h
  cases hres : calcLoop M cpuR memR dist.allocation ⟨0, 0, 0, 0, []⟩ with
  | none => rw [hres] at h; cases h
  | some o =>
    cases o with
    | none =>
      rw [hres] at h
      simp only [Option.some.injEq, Prod.mk.injEq, true_and] at h
      exact ⟨h.symm, by rw [h]⟩
    | some st =>
      rw [hres] at h
      simp at h

/-- The Scenario 2 style allocation `(1,2,2)` on the reference clusters. -/
def dist122 : Distribution :=
  ⟨"(1,2,2)", [("edge", 1), ("fog", 2), ("cloud", 2)], []⟩

/-- Witness for C10: with 2500 millicores per replica the `edge` cluster
(capacity 2000) rejects `(1,2,2)` and the metric bag stays empty. -/
theorem claim_C10_rejection_atomicity_witness :
    CalculateDistributionMetrics dist122 refClusterMetrics 2500 2147483648 =
      some (false, dist122) ∧ dist122.metrics = dist122.metrics := by
  have h : CalculateDistributionMetrics dist122 refClusterMetrics 2500 2147483648 =
      some (false, dist122) := by decide
  exact ⟨h,
    (claim_C10_rejection_atomicity dist122 refClusterMetrics 2500 2147483648 dist122 h).2⟩

/-! ### Claim C4: power and cost accounting -/

/-- The cluster-metrics record a Go map index returns for a name (zero-value
record when absent). -/
def clusterOf (M : List (String × ClusterMetrics)) (c : String) : ClusterMetrics :=
  (alookup M c).getD ⟨"", []⟩

/-- Worker nodes required by cluster `c` for `r` replicas, as a rational (the
defined value of the bin packer, `0` when the packer would diverge). -/
def nodesRequiredFor (M : List (String × ClusterMetrics)) (cpuR memR : ℤ)
    (c : String) (r : ℤ) : ℚ :=
  ((((binPackNodes r ((cpuR : ℤ) : ℚ) ((memR : ℤ) : ℚ)
    (mval (clusterOf M c) "worker_cpu_capacity")
    (mval (clusterOf M c) "worker_memory_capacity")).getD 0 : ℤ) : ℚ))

/-- The specified power total: control-plane power of every cluster of the
allocation (idle ones included) plus worker power times nodes required for
every cluster with replicas. -/
def powerAccounting (M : List (String × ClusterMetrics)) (cpuR memR : ℤ)
    (entries : List (String × ℤ)) : ℚ :=
  (entries.map (fun p => mval (clusterOf M p.1) "control_plane_power")).sum +
  (entries.map (fun p =>
    if p.2 = 0 then 0
    else mval (clusterOf M p.1) "worker_power" *
      nodesRequiredFor M cpuR memR p.1 p.2)).sum

/-- The specified cost total, analogous to `powerAccounting`. -/
def costAccounting (M : List (String × ClusterMetrics)) (cpuR memR : ℤ)
    (entries : List (String × ℤ)) : ℚ :=
  (entries.map (fun p => mval (clusterOf M p.1) "control_plane_cost")).sum +
  (entries.map (fun p =>
    if p.2 = 0 then 0
    else mval (clusterOf M p.1) "worker_cost" *
      nodesRequiredFor M cpuR memR p.1 p.2)).sum

theorem calcLoop_totals (M : List (String × ClusterMetrics)) (cpuR memR : ℤ) :
    ∀ (entries : List (String × ℤ)) (st st' : CalcState),
      calcLoop M cpuR memR entries st = some (some st') →
      st'.totalPower = st.totalPower + powerAccounting M cpuR memR entries ∧
      st'.totalCost = st.totalCost + costAccounting M cpuR memR entries := by
  intro entries
  induction entries with
  | nil =>
    intro st st' h
    simp only [calcLoop, Option.some.injEq] at h
    cases h
    simp [powerAccounting, costAccounting]
  | cons e rest ih =>
    intro st st' h
    obtain ⟨c, r⟩ := e
    simp only [calcLoop] at h
    cases hm : alookup M c with
    | none => simp only [hm] at h; simp at h
    | some met =>
      simp only [hm] at h
      by_cases hr : r = 0
      · rw [if_pos hr] at h
        obtain ⟨hp, hc⟩ := ih _ _ h
        constructor
        · simp only [hp, powerAccounting, List.map_cons, List.sum_cons, clusterOf, hm,
            Option.getD_some, hr, if_pos]
          ring
        · simp only [hc, costAccounting, List.map_cons, List.sum_cons, clusterOf, hm,
            Option.getD_some, hr, if_pos]
          ring
      · rw [if_neg hr] at h
        by_cases hg : i64trunc (mval met "worker_cpu_capacity") < cpuR ∨
            i64trunc (mval met "worker_memory_capacity") < memR
        · simp only [if_pos hg] at h
          simp at h
        · rw [if_neg hg] at h
          cases hbp : binPackNodes r ((cpuR : ℤ) : ℚ) ((memR : ℤ) : ℚ)
              (mval met "worker_cpu_capacity") (mval met "worker_memory_capacity") with
          | none => simp only [hbp] at h; simp at h
          | some n =>
            simp only [hbp] at h
            by_cases hmax : mval met "max_worker_nodes" < ((n : ℤ) : ℚ)
            · simp only [if_pos hmax] at h
              simp at h
            · rw [if_neg hmax] at h
              obtain ⟨hp, hc⟩ := ih _ _ h
              constructor
              · simp only [hp, powerAccounting, List.map_cons, List.sum_cons, clusterOf,
                  hm, Option.getD_some, if_neg hr, nodesRequiredFor, hbp]
                ring
              · simp only [hc, costAccounting, List.map_cons, List.sum_cons, clusterOf,
                  hm, Option.getD_some, if_neg hr, nodesRequiredFor, hbp]
                ring

theorem worker_nodes_key_ne (c k : String) (hk : k.length < 13) :
    ("worker_nodes_" ++ c) ≠ k := by
  intro h
  have hlen := congrArg String.length h
  rw [String.length_append] at hlen
  have h13 : ("worker_nodes_" : String).length = 13 := by decide
  omega

theorem alookup_foldl_workernodes (pairs : List (String × ℚ))
    (m : List (String × ℚ)) (k : String) (hk : k.length < 13) :
    alookup (pairs.foldl (fun acc p => ("worker_nodes_" ++ p.1, p.2) :: acc) m) k =
      alookup m k := by
  induction pairs generalizing m with
  | nil => rfl
  | cons p ps ih =>
    rw [List.foldl_cons, ih]
    simp only [alookup, if_neg (worker_nodes_key_ne p.1 k hk)]

/-- C4: for every accepted allocation, the stored `power` metric equals the
sum of control-plane power over all clusters of the allocation plus worker
power times bin-packed nodes over the clusters with replicas, and analogously
for `cost`. -/
theorem claim_C4_power_cost_accounting (dist : Distribution)
    (M : List (String × ClusterMetrics)) (cpuR memR : ℤ) (d' : Distribution)
    (h : CalculateDistributionMetrics dist M cpuR memR = some (true, d')) :
    alookup d'.metrics "power" = some (powerAccounting M cpuR memR dist.allocation) ∧
    alookup d'.metrics "cost" = some (costAccounting M cpuR memR dist.allocation) := by
  rw [CalculateDistributionMetrics] at h
  cases hres : calcLoop M cpuR memR dist.allocation ⟨0, 0, 0, 0, []⟩ with
  | none => rw [hres] at h; cases h
  | some o =>
    cases o with
    | none => rw [hres] at h; simp at h
    | some st =>
      rw [hres] at h
      simp only [Option.some.injEq, Prod.mk.injEq, true_and] at h
      obtain ⟨hp, hc⟩ := calcLoop_totals M cpuR memR dist.allocation _ _ hres
      rw [← h]
      rw [zero_add] at hp hc
      constructor
      · rw [alookup_foldl_workernodes _ _ _ (by decide)]
        simp only [alookup, if_neg (by decide : ¬ ("weighted_latency" : String) = "power"),
          if_neg (by decide : ¬ ("load_balance_std_dev" : String) = "power"),
          if_neg (by decide : ¬ ("utilization" : String) = "power"),
          if_neg (by decide : ¬ ("cost" : String) = "power"),
          if_pos (rfl : ("power" : String) = "power")]
        rw [hp]
        simp
      · rw [alookup_foldl_workernodes _ _ _ (by decide)]
        simp only [alookup, if_neg (by decide : ¬ ("weighted_latency" : String) = "cost"),
          if_neg (by decide : ¬ ("load_balance_std_dev" : String) = "cost"),
          if_neg (by decide : ¬ ("utilization" : String) = "cost"),
          if_pos (rfl : ("cost" : String) = "cost")]
        rw [hc]
        simp

/-- The Scenario 4 allocation `(1,1,0)` on the reference clusters. -/
def dist110 : Distribution :=
  ⟨"(1,1,0)", [("edge", 1), ("fog", 1), ("cloud", 0)], []⟩

/-- Witness for C4 at Scenario 4: allocation `(1,1,0)`, 1000 millicores and
1 GiB per replica, on the reference clusters: stored power is
`(40+30+15) + (40·1 + 70·1) = 195`, stored cost `(60+45+30) + (60+100) = 295`. -/
theorem claim_C4_power_cost_accounting_witness :
    ∃ d', CalculateDistributionMetrics dist110 refClusterMetrics 1000 1073741824 =
        some (true, d') ∧
      alookup d'.metrics "power" = some 195 ∧
      alookup d'.metrics "cost" = some 295 := by
  cases hres : CalculateDistributionMetrics dist110 refClusterMetrics 1000 1073741824 with
  | none =>
    have hs : (CalculateDistributionMetrics dist110 refClusterMetrics
        1000 1073741824).isSome = true := by decide
    rw [hres] at hs
    cases hs
  | some p =>
    obtain ⟨b, d'⟩ := p
    have hb : (CalculateDistributionMetrics dist110 refClusterMetrics
        1000 1073741824).map Prod.fst = some true := by decide
    rw [hres] at hb
    simp only [Option.map_some'] at hb
    cases hb
    obtain ⟨h1, h2⟩ :=
      claim_C4_power_cost_accounting dist110 refClusterMetrics 1000 1073741824 d' hres
    refine ⟨d', rfl, ?_, ?_⟩
    · rw [h1]
      decide
    · rw [h2]
      decide

/-! ### Claim C3: feasibility acceptance -/

theorem i64trunc_lt {cap : ℚ} {x : ℤ} (hcap : 0 ≤ cap) :
    i64trunc cap < x ↔ ¬ ((x : ℚ) ≤ cap) := by
  rw [i64trunc, if_pos hcap]
  constructor
  · intro h hle
    have := Int.le_floor.mpr hle
    omega
  · intro h
    by_contra h'
    push_neg at h'
    exact h (by exact_mod_cast Int.le_floor.mp (by omega))

/-- The acceptance condition of the claim for a single allocation entry:
the cluster is present in the metric map, and when it holds replicas, the
per-replica demands fit a worker node and the bin-packed node count respects
`max_worker_nodes`. -/
def feasibleFor (M : List (String × ClusterMetrics)) (cpuR memR : ℤ)
    (p : String × ℤ) : Prop :=
  (alookup M p.1).isSome = true ∧
  (0 < p.2 →
    ((cpuR : ℚ) ≤ mval (clusterOf M p.1) "worker_cpu_capacity" ∧
     (memR : ℚ) ≤ mval (clusterOf M p.1) "worker_memory_capacity" ∧
     ∃ n, binPackNodes p.2 ((cpuR : ℤ) : ℚ) ((memR : ℤ) : ℚ)
         (mval (clusterOf M p.1) "worker_cpu_capacity")
         (mval (clusterOf M p.1) "worker_memory_capacity") = some n ∧
       ((n : ℤ) : ℚ) ≤ mval (clusterOf M p.1) "max_worker_nodes"))

theorem calcLoop_ok_iff (M : List (String × ClusterMetrics)) (cpuR memR : ℤ)
    (hcap : ∀ p ∈ M, 0 ≤ mval p.2 "worker_cpu_capacity" ∧
      0 ≤ mval p.2 "worker_memory_capacity") :
    ∀ (entries : List (String × ℤ)), (∀ p ∈ entries, 0 ≤ p.2) →
      ∀ st : CalcState,
        (∃ st', calcLoop M cpuR memR entries st = some (some st')) ↔
          ∀ p ∈ entries, feasibleFor M cpuR memR p := by
  intro entries
  induction entries with
  | nil => intro _ st; simp [calcLoop]
  | cons e rest ih =>
    intro hpos st
    obtain ⟨c, r⟩ := e
    have hposrest : ∀ p ∈ rest, 0 ≤ p.2 := fun p hp => hpos p (List.mem_cons_of_mem _ hp)
    rw [List.forall_mem_cons]
    simp only [calcLoop]
    cases hm : alookup M c with
    | none =>
      constructor
      · rintro ⟨st', h⟩
        simp only [hm] at h
        simp at h
      · rintro ⟨⟨h, -⟩, -⟩
        simp only [feasibleFor] at h
        rw [hm] at h
        simp at h
    | some met =>
      simp only [hm]
      have hmet := hcap _ (alookup_mem hm)
      have hclusterOf : clusterOf M c = met := by simp [clusterOf, hm]
      by_cases hr : r = 0
      · subst hr
        simp only [eq_self_iff_true, if_true]
        rw [ih hposrest _]
        have hfeas : feasibleFor M cpuR memR (c, 0) := by
          refine ⟨by simp [hm], fun h => absurd h (by simp)⟩
        constructor
        · intro hrest; exact ⟨hfeas, hrest⟩
        · rintro ⟨-, hrest⟩; exact hrest
      · rw [if_neg hr]
        have hrpos : 0 < r := by
          have := hpos _ (List.mem_cons_self _ _)
          simp only at this
          omega
        by_cases hg : i64trunc (mval met "worker_cpu_capacity") < cpuR ∨
            i64trunc (mval met "worker_memory_capacity") < memR
        · rw [if_pos hg]
          constructor
          · rintro ⟨st', h⟩; simp at h
          · rintro ⟨⟨-, hcond⟩, -⟩
            obtain ⟨h1, h2, -⟩ := hcond hrpos
            rw [hclusterOf] at h1 h2
            rcases hg with hg | hg
            · exact absurd h1 ((i64trunc_lt hmet.1).mp hg)
            · exact absurd h2 ((i64trunc_lt hmet.2).mp hg)
        · rw [if_neg hg]
          push_neg at hg
          have h1 : ((cpuR : ℤ) : ℚ) ≤ mval met "worker_cpu_capacity" :=
            i64trunc_guard hmet.1 (by omega)
          have h2 : ((memR : ℤ) : ℚ) ≤ mval met "worker_memory_capacity" :=
            i64trunc_guard hmet.2 (by omega)
          cases hbp : binPackNodes r ((cpuR : ℤ) : ℚ) ((memR : ℤ) : ℚ)
              (mval met "worker_cpu_capacity") (mval met "worker_memory_capacity") with
          | none =>
            obtain ⟨n, hn, -⟩ := binPackNodes_isSome_of_fits _ _ _ _ r h1 h2
            rw [hn] at hbp
            cases hbp
          | some n =>
            simp only [hbp]
            by_cases hmax : mval met "max_worker_nodes" < ((n : ℤ) : ℚ)
            · rw [if_pos hmax]
              constructor
              · rintro ⟨st', h⟩; simp at h
              · rintro ⟨⟨-, hcond⟩, -⟩
                obtain ⟨-, -, n', hn', hle⟩ := hcond hrpos
                rw [hclusterOf] at hn' hle
                rw [hbp] at hn'
                cases hn'
                push_neg at hmax
                exact absurd hle (by push_neg; exact hmax)
            · rw [if_neg hmax]
              rw [ih hposrest _]
              push_neg at hmax
              constructor
              · intro hrest
                refine ⟨⟨by simp [hm], fun _ => ?_⟩, hrest⟩
                rw [hclusterOf]
                exact ⟨h1, h2, n, hbp, hmax⟩
              · rintro ⟨-, hrest⟩; exact hrest

/-- C3: on metric maps with non-negative worker capacities and allocations
with non-negative replica counts, `CalculateDistributionMetrics` accepts an
allocation if and only if every cluster of the allocation appears in the
metric map and every cluster holding replicas satisfies the per-replica CPU
and memory fit and the bin-packed `nodes_required ≤ max_worker_nodes` bound. -/
theorem claim_C3_feasibility (dist : Distribution)
    (M : List (String × ClusterMetrics)) (cpuR memR : ℤ)
    (hcap : ∀ p ∈ M, 0 ≤ mval p.2 "worker_cpu_capacity" ∧
      0 ≤ mval p.2 "worker_memory_capacity")
    (hpos : ∀ p ∈ dist.allocation, 0 ≤ p.2) :
    (∃ d', CalculateDistributionMetrics dist M cpuR memR = some (true, d')) ↔
      ∀ p ∈ dist.allocation, feasibleFor M cpuR memR p := by
  rw [← calcLoop_ok_iff M cpuR memR hcap dist.allocation hpos ⟨0, 0, 0, 0, []⟩]
  constructor
  · rintro ⟨d', hd⟩
    rw [CalculateDistributionMetrics] at hd
    cases hres : calcLoop M cpuR memR dist.allocation ⟨0, 0, 0, 0, []⟩ with
    | none => rw [hres] at hd; cases hd
    | some o =>
      cases o with
      | none => rw [hres] at hd; simp at hd
      | some st => exact ⟨st, rfl⟩
  · rintro ⟨st', hst⟩
    simp only [CalculateDistributionMetrics, hst]
    exact ⟨_, rfl⟩

/-- The Scenario 6 winning allocation `(0,3,2)` on the reference clusters. -/
def dist032 : Distribution :=
  ⟨"(0,3,2)", [("edge", 0), ("fog", 3), ("cloud", 2)], []⟩

/-- Witness for C3: the allocation `(0,3,2)` with 1000 millicores / 1 GiB per
replica satisfies all feasibility conditions on the reference clusters, hence
is accepted. -/
theorem claim_C3_feasibility_witness :
    ∃ d', CalculateDistributionMetrics dist032 refClusterMetrics 1000 1073741824 =
      some (true, d') := by
  refine (claim_C3_feasibility dist032 refClusterMetrics 1000 1073741824
    (by decide) (by decide)).mpr ?_
  intro p hp
  fin_cases hp
  · exact ⟨by decide, fun h => absurd h (by decide)⟩
  · exact ⟨by decide, fun _ => ⟨by decide, by decide, 1, by decide, by decide⟩⟩
  · exact ⟨by decide, fun _ => ⟨by decide, by decide, 1, by decide, by decide⟩⟩

/-! ### Claim C1: zero-replica weight preservation -/

theorem alookup_applyWeights_not_mem (hz : Bool) :
    ∀ (ns : List String) (a : List (String × ℤ)) (c : String), c ∉ ns →
      alookup (applyWeights hz ns a) c = alookup a c := by
  intro ns
  induction ns with
  | nil => intro a c _; rfl
  | cons n rest ih =>
    intro a c hc
    have hcn : ¬ c = n := fun h => hc (h ▸ List.mem_cons_self _ _)
    have hcr : c ∉ rest := fun h => hc (List.mem_cons_of_mem _ h)
    simp only [applyWeights]
    rw [ih _ _ hcr]
    simp only [alookup]
    rw [if_neg (fun h => hcn h.symm)]

theorem keysNodup_alookup (l : List (String × ℤ))
    (h : (l.map Prod.fst).Nodup) (p : String × ℤ) (hp : p ∈ l) :
    alookup l p.1 = some p.2 := by
  induction l with
  | nil => cases hp
  | cons q rest ih =>
    rcases List.mem_cons.mp hp with rfl | hp'
    · simp [alookup]
    · have hq : q.1 ∉ rest.map Prod.fst := (List.nodup_cons.mp h).1
      have hne : ¬ q.1 = p.1 := fun he =>
        hq (he ▸ List.mem_map_of_mem Prod.fst hp')
      simp only [alookup, if_neg hne]
      exact ih (List.nodup_cons.mp h).2 hp'

theorem hasZeroAllocations_iff (alloc : List (String × ℤ)) (names : List String)
    (hnodup : (alloc.map Prod.fst).Nodup)
    (h1 : ∀ c ∈ names, c ∈ alloc.map Prod.fst)
    (h2 : ∀ p ∈ alloc, p.1 ∈ names) :
    hasZeroAllocations alloc = true ↔
      ∃ c ∈ names, (alookup alloc c).getD 0 = 0 := by
  simp only [hasZeroAllocations, List.any_eq_true]
  constructor
  · rintro ⟨p, hp, hz⟩
    refine ⟨p.1, h2 p hp, ?_⟩
    rw [keysNodup_alookup alloc hnodup p hp]
    simpa using hz
  · rintro ⟨c, hc, h0⟩
    obtain ⟨p, hp, rfl⟩ := List.mem_map.mp (h1 c hc)
    refine ⟨p, hp, ?_⟩
    rw [keysNodup_alookup alloc hnodup p hp] at h0
    simpa using h0

theorem applyWeights_lookup (hz : Bool) :
    ∀ (ns : List String) (a a0 : List (String × ℤ)),
      ns.Nodup → (∀ c ∈ ns, alookup a c = alookup a0 c) →
      ∀ c ∈ ns, alookup (applyWeights hz ns a) c =
        some (if hz then
          (if 0 < (alookup a0 c).getD 0 then (alookup a0 c).getD 0 * 1000 else 1)
        else (alookup a0 c).getD 0) := by
  intro ns
  induction ns with
  | nil => intro a a0 _ _ c hc; cases hc
  | cons n rest ih =>
    intro a a0 hnodup hagree c hc
    simp only [applyWeights]
    rcases List.mem_cons.mp hc with rfl | hc'
    · rw [alookup_applyWeights_not_mem hz rest _ c (List.nodup_cons.mp hnodup).1]
      simp only [alookup, if_pos rfl]
      rw [hagree c (List.mem_cons_self _ _)]
      simp
    · have hne : ¬ n = c := by
        intro h
        exact (List.nodup_cons.mp hnodup).1 (h ▸ hc')
      refine ih _ a0 (List.nodup_cons.mp hnodup).2 ?_ c hc'
      intro c' hc''
      simp only [alookup]
      rw [if_neg (fun h => (List.nodup_cons.mp hnodup).1 (by rw [h]; exact hc''))]
      exact hagree c' (List.mem_cons_of_mem _ hc'')

/-- C1: for the winning allocation, if every cluster holds a positive replica
count the emitted weights equal the replica counts; otherwise clusters with
replicas get `count · 1000` and zero-replica clusters get `1`.  Stated for a
score-list cluster order without duplicates whose names coincide with the
allocation's keys, and non-negative replica counts. -/
theorem claim_C1_zero_preservation (names : List String)
    (alloc : List (String × ℤ)) (hnames : names.Nodup)
    (hkeysN : (alloc.map Prod.fst).Nodup)
    (h1 : ∀ c ∈ names, c ∈ alloc.map Prod.fst)
    (h2 : ∀ p ∈ alloc, p.1 ∈ names)
    (hpos : ∀ p ∈ alloc, 0 ≤ p.2) :
    ∀ c ∈ names,
      alookup (emitClusterWeights names alloc) c =
        some (if ∀ c' ∈ names, 0 < (alookup alloc c').getD 0
          then (alookup alloc c).getD 0
          else if 0 < (alookup alloc c).getD 0
            then (alookup alloc c).getD 0 * 1000 else 1) := by
  intro c hc
  rw [emitClusterWeights,
    applyWeights_lookup (hasZeroAllocations alloc) names alloc alloc hnames
      (fun _ _ => rfl) c hc]
  congr 1
  by_cases hall : ∀ c' ∈ names, 0 < (alookup alloc c').getD 0
  · rw [if_pos hall]
    have hz : hasZeroAllocations alloc = false := by
      rw [← Bool.not_eq_true]
      intro h
      obtain ⟨c', hc', h0⟩ :=
        (hasZeroAllocations_iff alloc names hkeysN h1 h2).mp h
      have := hall c' hc'
      omega
    rw [hz]
    simp
  · rw [if_neg hall]
    have hz : hasZeroAllocations alloc = true := by
      push_neg at hall
      obtain ⟨c', hc', h0⟩ := hall
      refine (hasZeroAllocations_iff alloc names hkeysN h1 h2).mpr ⟨c', hc', ?_⟩
      obtain ⟨p, hp, rfl⟩ := List.mem_map.mp (h1 c' hc')
      rw [keysNodup_alookup alloc hkeysN p hp]
      rw [keysNodup_alookup alloc hkeysN p hp] at h0
      have := hpos p hp
      simp only [Option.getD_some] at h0 ⊢
      omega
    rw [hz]
    simp

/-- Witness for C1 at Scenario 6: winner `(0,3,2)` over `edge, fog, cloud`
gives weights edge = 1, fog = 3000, cloud = 2000; the all-positive winner
`(1,2,2)` keeps its replica counts as weights. -/
theorem claim_C1_zero_preservation_witness :
    alookup (emitClusterWeights ["edge", "fog", "cloud"]
      [("edge", 0), ("fog", 3), ("cloud", 2)]) "fog" = some 3000 ∧
    alookup (emitClusterWeights ["edge", "fog", "cloud"]
      [("edge", 0), ("fog", 3), ("cloud", 2)]) "edge" = some 1 ∧
    alookup (emitClusterWeights ["edge", "fog", "cloud"]
      [("edge", 0), ("fog", 3), ("cloud", 2)]) "cloud" = some 2000 ∧
    alookup (emitClusterWeights ["edge", "fog", "cloud"]
      [("edge", 1), ("fog", 2), ("cloud", 2)]) "fog" = some 2 := by
  have hA := claim_C1_zero_preservation ["edge", "fog", "cloud"]
    [("edge", 0), ("fog", 3), ("cloud", 2)]
    (by decide) (by decide) (by decide) (by decide) (by decide)
  have hB := claim_C1_zero_preservation ["edge", "fog", "cloud"]
    [("edge", 1), ("fog", 2), ("cloud", 2)]
    (by decide) (by decide) (by decide) (by decide) (by decide)
  refine ⟨?_, ?_, ?_, ?_⟩
  · rw [hA "fog" (by decide)]
    decide
  · rw [hA "edge" (by decide)]
    decide
  · rw [hA "cloud" (by decide)]
    decide
  · rw [hB "fog" (by decide)]
    decide

/-! ### Claim C5: best-distribution selection -/

/-- Running maximum of the scores of a score list, seeded with `b` (the
code's `bestScore`, initially `-1`). -/
def maxFrom (b : ℤ) : List DistributionScore → ℤ
  | [] => b
  | e :: rest => maxFrom (max b e.score) rest

theorem le_maxFrom : ∀ (es : List DistributionScore) (b : ℤ), b ≤ maxFrom b es := by
  intro es
  induction es with
  | nil => intro b; exact le_rfl
  | cons e rest ih =>
    intro b
    exact le_trans (le_max_left _ _) (ih (max b e.score))

theorem score_le_maxFrom : ∀ (es : List DistributionScore) (b : ℤ) (e : DistributionScore),
    e ∈ es → e.score ≤ maxFrom b es := by
  intro es
  induction es with
  | nil => intro b e he; cases he
  | cons e' rest ih =>
    intro b e he
    rcases List.mem_cons.mp he with rfl | he'
    · exact le_trans (le_max_right _ _) (le_maxFrom rest (max b e.score))
    · exact ih _ e he'

theorem findBestLoop_const (F : List Distribution) :
    ∀ (es : List DistributionScore) (b : ℤ) (cur : Option Distribution),
      (∀ e ∈ es, e.score ≤ b) → findBestLoop F es b cur = cur := by
  intro es
  induction es with
  | nil => intro b cur _; rfl
  | cons e rest ih =>
    intro b cur h
    have he : e.score ≤ b := h e (List.mem_cons_self _ _)
    simp only [findBestLoop, if_neg (by omega : ¬ b < e.score)]
    exact ih b cur (fun e' he' => h e' (List.mem_cons_of_mem _ he'))

theorem findBestLoop_spec (F : List Distribution) :
    ∀ (es : List DistributionScore) (b : ℤ) (cur : Option Distribution),
      (∀ e ∈ es, ∃ d ∈ F, d.id = e.id) →
      b < maxFrom b es →
      ∀ e₀, es.find? (fun e => decide (maxFrom b es ≤ e.score)) = some e₀ →
      findBestLoop F es b cur = F.find? (fun d => d.id == e₀.id) := by
  intro es
  induction es with
  | nil =>
    intro b cur _ hlt e₀ _
    simp only [maxFrom] at hlt
    omega
  | cons e rest ih =>
    intro b cur hids hlt e₀ hfind
    have hmax : maxFrom b (e :: rest) = maxFrom (max b e.score) rest := rfl
    by_cases hbe : b < e.score
    · have hmaxe : maxFrom b (e :: rest) = maxFrom e.score rest := by
        rw [hmax, max_eq_right (le_of_lt hbe)]
      obtain ⟨d, hd, hdid⟩ := hids e (List.mem_cons_self _ _)
      have hfs : (F.find? (fun d => d.id == e.id)).isSome := by
        rw [List.find?_isSome]
        exact ⟨d, hd, by simp [hdid]⟩
      cases hfound : F.find? (fun d => d.id == e.id) with
      | none => rw [hfound] at hfs; cases hfs
      | some d' =>
        simp only [findBestLoop, if_pos hbe, hfound]
        by_cases hM : maxFrom e.score rest ≤ e.score
        · have hMe : maxFrom b (e :: rest) = e.score := by
            rw [hmaxe]
            exact le_antisymm hM (le_maxFrom rest e.score)
          rw [hMe] at hfind
          rw [List.find?_cons_of_pos _ (by simp)] at hfind
          cases hfind
          rw [findBestLoop_const F rest e.score (some d') ?_]
          · exact hfound.symm
          · intro e' he'
            exact le_trans (score_le_maxFrom rest e.score e' he') hM
        · push_neg at hM
          rw [hmaxe] at hfind
          rw [List.find?_cons_of_neg _ (by simp; omega)] at hfind
          exact ih e.score (some d') (fun e' he' => hids e' (List.mem_cons_of_mem _ he'))
            hM e₀ hfind
    · have hmaxb : maxFrom b (e :: rest) = maxFrom b rest := by
        rw [hmax, max_eq_left (by omega)]
      simp only [findBestLoop, if_neg hbe]
      rw [hmaxb] at hfind hlt
      have hse : e.score < maxFrom b rest := by
        have := le_maxFrom rest b
        omega
      rw [List.find?_cons_of_neg _ (by simp; omega)] at hfind
      exact ih b cur (fun e' he' => hids e' (List.mem_cons_of_mem _ he')) hlt e₀ hfind

/-- Enumeration-order example distributions used to exhibit the tie-breaking
behavior of `FindBestDistribution`. -/
def distA : Distribution := ⟨"(1,0)", [("x", 1), ("y", 0)], []⟩

/-- Second distribution in enumeration order for the tie-breaking example. -/
def distB : Distribution := ⟨"(0,1)", [("x", 0), ("y", 1)], []⟩

/-- C5 counterexample: distributions in enumeration order `[distA, distB]`,
score list carrying a tie but listing `distB`'s id first.  The claim says a
tie is resolved to the first distribution in enumeration order (`distA`), but
`FindBestDistribution` returns `distB`: the strict-improvement scan keeps the
first score-list entry attaining the maximum, regardless of enumeration
order. -/
theorem claim_C5_counterexample :
    FindBestDistribution [distA, distB]
        (some ⟨[⟨"(0,1)", 5⟩, ⟨"(1,0)", 5⟩]⟩) = some distB ∧
      distB ≠ distA := by
  constructor
  · decide
  · decide

/-- C5 (amended): given a non-nil response with a non-empty score list of
non-negative scores whose ids all occur in the feasible list `F`,
`FindBestDistribution` returns the first distribution in `F` whose id equals
the id of the first score-list entry attaining the maximum score (ties are
thus broken by score-list order, not enumeration order — see
`claim_C5_counterexample`); a nil response or an empty score list yields
`none`. -/
theorem claim_C5_find_best (F : List Distribution) (resp : DistributionAHPResponse)
    (hne : resp.scores ≠ [])
    (hnn : ∀ e ∈ resp.scores, 0 ≤ e.score)
    (hids : ∀ e ∈ resp.scores, ∃ d ∈ F, d.id = e.id)
    (e₀ : DistributionScore)
    (hfind : resp.scores.find?
      (fun e => decide (maxFrom (-1) resp.scores ≤ e.score)) = some e₀) :
    FindBestDistribution F (some resp) = F.find? (fun d => d.id == e₀.id) ∧
    FindBestDistribution F none = none ∧
    FindBestDistribution F (some ⟨[]⟩) = none := by
  refine ⟨?_, rfl, rfl⟩
  obtain ⟨e, he⟩ := List.exists_mem_of_ne_nil _ hne
  have hlt : (-1 : ℤ) < maxFrom (-1) resp.scores :=
    lt_of_lt_of_le (by have := hnn e he; omega)
      (score_le_maxFrom resp.scores (-1) e he)
  rw [FindBestDistribution]
  rw [if_neg (by simpa [List.isEmpty_iff] using hne)]
  exact findBestLoop_spec F resp.scores (-1) none hids hlt e₀ hfind

/-- Witness for C5 (amended): on the tie example the selector returns the
first match of the first maximal score entry (`distB`). -/
theorem claim_C5_find_best_witness :
    FindBestDistribution [distA, distB]
        (some ⟨[⟨"(0,1)", 5⟩, ⟨"(1,0)", 5⟩]⟩) =
      [distA, distB].find? (fun d => d.id == "(0,1)") := by
  exact (claim_C5_find_best [distA, distB] ⟨[⟨"(0,1)", 5⟩, ⟨"(1,0)", 5⟩]⟩
    (by decide) (by decide) (by decide) ⟨"(0,1)", 5⟩ (by decide)).1

/-! ### Claim C8: proportionality zero-characterization -/

theorem list_sum_eq_zero_iff (l : List ℚ) (h : ∀ x ∈ l, 0 ≤ x) :
    l.sum = 0 ↔ ∀ x ∈ l, x = 0 := by
  induction l with
  | nil => simp
  | cons a rest ih =>
    rw [List.sum_cons, List.forall_mem_cons]
    have ha : 0 ≤ a := h a (List.mem_cons_self _ _)
    have hrest : ∀ x ∈ rest, 0 ≤ x := fun x hx => h x (List.mem_cons_of_mem _ hx)
    have hsum : 0 ≤ rest.sum := List.sum_nonneg hrest
    constructor
    · intro h0
      have ha0 : a = 0 := by linarith
      have hs0 : rest.sum = 0 := by linarith
      exact ⟨ha0, (ih hrest).mp hs0⟩
    · rintro ⟨ha0, hall⟩
      rw [ha0, (ih hrest).mpr hall, add_zero]

theorem calculateVariance_nonneg (l : List ℚ) : 0 ≤ calculateVariance l := by
  rw [calculateVariance]
  split
  · exact le_rfl
  · apply div_nonneg
    · exact List.sum_nonneg (by
        intro x hx
        obtain ⟨v, -, rfl⟩ := List.mem_map.mp hx
        exact mul_self_nonneg _)
    · positivity

theorem calculateVariance_eq_zero_iff (l : List ℚ) (hl : 2 ≤ l.length) :
    calculateVariance l = 0 ↔ ∀ x ∈ l, x = l.sum / (l.length : ℚ) := by
  rw [calculateVariance, if_neg (by omega)]
  have hlen : ((l.length : ℚ)) ≠ 0 := by
    have : (0 : ℚ) < (l.length : ℚ) := by exact_mod_cast (by omega : 0 < l.length)
    exact ne_of_gt this
  rw [div_eq_zero_iff]
  constructor
  · intro h
    rcases h with h | h
    · intro x hx
      have := (list_sum_eq_zero_iff _ (by
        intro v hv
        obtain ⟨w, -, rfl⟩ := List.mem_map.mp hv
        exact mul_self_nonneg _)).mp h
      have hx0 := this _ (List.mem_map_of_mem _ hx)
      have : x - l.sum / (l.length : ℚ) = 0 := by
        exact mul_self_eq_zero.mp hx0
      linarith [this]
    · exact absurd h hlen
  · intro h
    left
    rw [list_sum_eq_zero_iff _ (by
      intro v hv
      obtain ⟨w, -, rfl⟩ := List.mem_map.mp hv
      exact mul_self_nonneg _)]
    intro v hv
    obtain ⟨w, hw, rfl⟩ := List.mem_map.mp hv
    have := h w hw
    rw [this]
    ring

theorem calculateStandardDeviation_eq_zero_iff (l : List ℚ) :
    calculateStandardDeviation l = 0 ↔ calculateVariance l = 0 := by
  rw [calculateStandardDeviation, Real.sqrt_eq_zero']
  constructor
  · intro h
    have h' : calculateVariance l ≤ 0 := by exact_mod_cast h
    exact le_antisymm h' (calculateVariance_nonneg l)
  · intro h
    rw [h]
    simp

theorem list_sum_map_div {α : Type} (l : List α) (f : α → ℚ) (c : ℚ) :
    (l.map (fun x => f x / c)).sum = (l.map f).sum / c := by
  induction l with
  | nil => simp
  | cons a rest ih => simp [ih, add_div]

theorem list_sum_map_intCast {α : Type} (l : List α) (f : α → ℤ) :
    (l.map (fun x => ((f x : ℤ) : ℚ))).sum = (((l.map f).sum : ℤ) : ℚ) := by
  induction l with
  | nil => simp
  | cons a rest ih => simp [ih]

/-- CPU capacity of one cluster as used by the load-balance metric:
`max_worker_nodes * worker_cpu_capacity`. -/
def clusterCPUCapacity (m : ClusterMetrics) : ℚ :=
  mval m "max_worker_nodes" * mval m "worker_cpu_capacity"

/-- Total CPU capacity over the metric map. -/
def totalCPUCapacity (M : List (String × ClusterMetrics)) : ℚ :=
  (M.map (fun p => clusterCPUCapacity p.2)).sum

/-- A cluster's share of the total CPU capacity (`capacityPercentage` in the
source). -/
def capacityShare (M : List (String × ClusterMetrics))
    (p : String × ClusterMetrics) : ℚ :=
  clusterCPUCapacity p.2 / totalCPUCapacity M

theorem loadRatios_eq (dist : Distribution) (M : List (String × ClusterMetrics))
    (N : ℤ) :
    loadRatios dist M N = M.map (fun p =>
      ((allocVal dist p.1 : ℤ) : ℚ) / ((N : ℤ) : ℚ) / capacityShare M p) := rfl

/-- C8: with at most one cluster in the metric map the proportionality metric
is `0`; for `K ≥ 2` clusters with `N > 0` total replicas (summed over the
map's clusters) and positive per-cluster CPU capacities, the population
standard deviation of the load ratios is `0` exactly when every cluster's
replica share equals its capacity share. -/
theorem claim_C8_proportionality (dist : Distribution)
    (M : List (String × ClusterMetrics)) (N : ℤ) :
    (M.length ≤ 1 → calculateLoadBalanceStdDev dist M N = 0) ∧
    (2 ≤ M.length → 0 < N →
      N = (M.map (fun p => allocVal dist p.1)).sum →
      (∀ p ∈ M, 0 < clusterCPUCapacity p.2) →
      (calculateLoadBalanceStdDev dist M N = 0 ↔
        ∀ p ∈ M, ((allocVal dist p.1 : ℤ) : ℚ) / ((N : ℤ) : ℚ) =
          capacityShare M p)) := by
  constructor
  · intro hlen
    rw [calculateLoadBalanceStdDev]
    split
    · rfl
    · rw [calculateStandardDeviation, calculateVariance,
        if_pos (by simpa [loadRatios_eq] using hlen)]
      simp
  · intro hlen hN hsum hcap
    have hN0 : N ≠ 0 := by omega
    have hNq : ((N : ℤ) : ℚ) ≠ 0 := Int.cast_ne_zero.mpr hN0
    have htot : 0 < totalCPUCapacity M := by
      refine List.sum_pos _ ?_ ?_
      · intro x hx
        obtain ⟨p, hp, rfl⟩ := List.mem_map.mp hx
        exact hcap p hp
      · simp only [ne_eq, List.map_eq_nil_iff]
        intro h
        rw [h] at hlen
        simp at hlen
    have hshare : ∀ p ∈ M, capacityShare M p ≠ 0 := by
      intro p hp
      exact ne_of_gt (div_pos (hcap p hp) htot)
    have hsumShare : (M.map (fun p => capacityShare M p)).sum = 1 := by
      rw [show (fun p => capacityShare M p) =
        (fun p : String × ClusterMetrics => clusterCPUCapacity p.2 / totalCPUCapacity M)
        from rfl]
      rw [list_sum_map_div]
      exact div_self (ne_of_gt htot)
    have hsumRepl : (M.map (fun p =>
        ((allocVal dist p.1 : ℤ) : ℚ) / ((N : ℤ) : ℚ))).sum = 1 := by
      rw [list_sum_map_div, list_sum_map_intCast, ← hsum]
      exact div_self hNq
    rw [calculateLoadBalanceStdDev, if_neg hN0,
      calculateStandardDeviation_eq_zero_iff,
      calculateVariance_eq_zero_iff _ (by simpa [loadRatios_eq] using hlen)]
    rw [loadRatios_eq]
    rw [List.forall_mem_map]
    constructor
    · intro h p hp
      set μ := (List.map (fun p =>
        ((allocVal dist p.1 : ℤ) : ℚ) / ((N : ℤ) : ℚ) / capacityShare M p) M).sum /
        ((List.map (fun p =>
          ((allocVal dist p.1 : ℤ) : ℚ) / ((N : ℤ) : ℚ) / capacityShare M p) M).length : ℚ)
        with hμ
      have hrepl : ∀ p ∈ M, ((allocVal dist p.1 : ℤ) : ℚ) / ((N : ℤ) : ℚ) =
          μ * capacityShare M p := by
        intro p hp
        have h' := h p hp
        rw [div_div, div_eq_iff (mul_ne_zero hNq (hshare p hp))] at h'
        rw [div_eq_iff hNq, h']
        ring
      have hμ1 : μ = 1 := by
        have hmap : M.map (fun p => ((allocVal dist p.1 : ℤ) : ℚ) / ((N : ℤ) : ℚ)) =
            M.map (fun p => μ * capacityShare M p) :=
          List.map_congr_left hrepl
        have := congrArg List.sum hmap
        rw [hsumRepl, List.sum_map_mul_left, hsumShare, mul_one] at this
        exact this.symm
      rw [hrepl p hp, hμ1, one_mul]
    · intro h p hp
      have hone : ((allocVal dist p.1 : ℤ) : ℚ) / ((N : ℤ) : ℚ) / capacityShare M p = 1 := by
        rw [h p hp]
        exact div_self (hshare p hp)
      have hall : ∀ x ∈ M.map (fun p =>
          ((allocVal dist p.1 : ℤ) : ℚ) / ((N : ℤ) : ℚ) / capacityShare M p), x = 1 := by
        intro x hx
        obtain ⟨q, hq, rfl⟩ := List.mem_map.mp hx
        rw [h q hq]
        exact div_self (hshare q hq)
      rw [hone]
      have hlenM : ((M.map (fun p =>
          ((allocVal dist p.1 : ℤ) : ℚ) / ((N : ℤ) : ℚ) / capacityShare M p)).length : ℚ) ≠ 0 := by
        rw [List.length_map]
        exact_mod_cast (by omega : (M.length : ℤ) ≠ 0)
      rw [List.sum_eq_card_nsmul _ 1 hall]
      simp only [nsmul_eq_mul, mul_one]
      rw [div_self hlenM]

/-- Two identical 1000-millicore single-node clusters for the C8 witness. -/
def clusterXMetrics : ClusterMetrics :=
  ⟨"x", [("max_worker_nodes", 1), ("worker_cpu_capacity", 1000)]⟩

/-- Second cluster of the C8 witness pair. -/
def clusterYMetrics : ClusterMetrics :=
  ⟨"y", [("max_worker_nodes", 1), ("worker_cpu_capacity", 1000)]⟩

/-- Metric map of the C8 witness. -/
def pairClusterMetrics : List (String × ClusterMetrics) :=
  [("x", clusterXMetrics), ("y", clusterYMetrics)]

/-- Perfectly proportional allocation for the C8 witness. -/
def distXY : Distribution := ⟨"(1,1)", [("x", 1), ("y", 1)], []⟩

/-- Witness for C8: two equal clusters, one replica each — every replica share
equals its capacity share, so the proportionality metric is zero. -/
theorem claim_C8_proportionality_witness :
    calculateLoadBalanceStdDev distXY pairClusterMetrics 2 = 0 := by
  exact ((claim_C8_proportionality distXY pairClusterMetrics 2).2
    (by decide) (by decide) (by decide) (by decide)).mpr (by decide)

/-! ### Faithfulness of the stored load-balance value -/

theorem floor_sqrt_eq_nat_sqrt_floor {x : ℝ} (hx : 0 ≤ x) :
    ⌊Real.sqrt x⌋ = (Nat.sqrt (⌊x⌋.toNat) : ℤ) := by
  set n := Nat.sqrt (⌊x⌋.toNat) with hn
  have hfl : (0 : ℤ) ≤ ⌊x⌋ ∨ ⌊x⌋ < 0 := le_or_lt 0 ⌊x⌋ |>.imp id id
  have hnn : (0 : ℤ) ≤ ⌊x⌋ := Int.floor_nonneg.mpr hx
  have h1 : n ^ 2 ≤ ⌊x⌋.toNat := Nat.sqrt_le' _
  have h2 : ⌊x⌋.toNat < (n + 1) ^ 2 := by
    simpa [Nat.succ_eq_add_one] using Nat.lt_succ_sqrt' (⌊x⌋.toNat)
  have hcast : ((⌊x⌋.toNat : ℕ) : ℝ) = ((⌊x⌋ : ℤ) : ℝ) := by
    exact_mod_cast Int.toNat_of_nonneg hnn
  rw [Int.floor_eq_iff]
  constructor
  · rw [show ((((n : ℕ) : ℤ)) : ℝ) = ((n : ℕ) : ℝ) by push_cast; ring]
    rw [Real.le_sqrt (by positivity) hx]
    have hle : ((n ^ 2 : ℕ) : ℝ) ≤ ((⌊x⌋.toNat : ℕ) : ℝ) := by exact_mod_cast h1
    calc ((n : ℕ) : ℝ) ^ 2 = ((n ^ 2 : ℕ) : ℝ) := by push_cast; ring
    _ ≤ ((⌊x⌋.toNat : ℕ) : ℝ) := hle
    _ = ((⌊x⌋ : ℤ) : ℝ) := hcast
    _ ≤ x := Int.floor_le x
  · rw [show (((((n : ℕ) : ℤ)) : ℝ) + 1) = ((n : ℕ) : ℝ) + 1 by push_cast; ring]
    rw [Real.sqrt_lt' (by positivity)]
    have hxlt : x < ((⌊x⌋ : ℤ) : ℝ) + 1 := Int.lt_floor_add_one x
    have hlt : ((⌊x⌋.toNat : ℕ) : ℝ) + 1 ≤ (((n + 1) ^ 2 : ℕ) : ℝ) := by
      exact_mod_cast h2
    calc x < ((⌊x⌋ : ℤ) : ℝ) + 1 := hxlt
    _ = ((⌊x⌋.toNat : ℕ) : ℝ) + 1 := by rw [hcast]
    _ ≤ (((n + 1) ^ 2 : ℕ) : ℝ) := hlt
    _ = (((n : ℕ) : ℝ) + 1) ^ 2 := by push_cast; ring

/-- The stored metric value `floorSqrt3 v` equals the Go computation
`math.Floor(math.Sqrt(v)*1000)/1000`, so writing the metric bag through
`floorSqrt3` is faithful to the source. -/
theorem floorSqrt3_eq_floor_sqrt (v : ℚ) (hv : 0 ≤ v) :
    ((floorSqrt3 v : ℚ) : ℝ) =
      ((⌊Real.sqrt ((v : ℚ) : ℝ) * 1000⌋ : ℤ) : ℝ) / 1000 := by
  have hvr : (0 : ℝ) ≤ ((v : ℚ) : ℝ) := by exact_mod_cast hv
  have hsq : Real.sqrt ((v : ℚ) : ℝ) * 1000 = Real.sqrt (((v : ℚ) : ℝ) * 1000000) := by
    rw [Real.sqrt_mul hvr 1000000]
    congr 1
    rw [show (1000000 : ℝ) = 1000 ^ 2 by norm_num, Real.sqrt_sq (by norm_num)]
  have hfloor : ⌊((v : ℚ) : ℝ) * 1000000⌋ = ⌊(1000000 : ℚ) * v⌋ := by
    rw [show ((v : ℚ) : ℝ) * 1000000 = (((1000000 : ℚ) * v : ℚ) : ℝ) by push_cast; ring]
    exact Rat.floor_cast _
  rw [hsq, floorSqrt3]
  rw [floor_sqrt_eq_nat_sqrt_floor (by positivity), hfloor]
  push_cast
  ring

/-! ### Claim C9: NormalizeScore failure semantics -/

/-- C9: `NormalizeScore` returns Success without emitting weights when
`replicas ≤ 0`; otherwise, once the enumerator and the feasibility filter have
produced the feasible set, it returns Error exactly when that set is empty,
when the AHP call fails, or when the best-distribution selector returns none;
in the remaining case it returns Success together with the emitted weights. -/
theorem claim_C9_normalize_failure_semantics (clusterNames : List String)
    (M : List (String × ClusterMetrics)) (totalReplicas cpuR memR : ℤ)
    (ahp : DistributionAHPRequest → Except String DistributionAHPResponse) :
    (totalReplicas ≤ 0 →
      NormalizeScoreModel clusterNames M totalReplicas cpuR memR ahp =
        some (FrameworkResult.Success, none)) ∧
    (0 < totalReplicas →
      ∀ dists feas,
        generateAllDistributions clusterNames totalReplicas = some dists →
        filterFeasible M cpuR memR dists = some feas →
        ((feas = [] →
          NormalizeScoreModel clusterNames M totalReplicas cpuR memR ahp =
            some (FrameworkResult.Error, none)) ∧
        (feas ≠ [] → ∀ err,
          ahp ⟨feas, getCriteriaForProfile selectedProfile⟩ = Except.error err →
          NormalizeScoreModel clusterNames M totalReplicas cpuR memR ahp =
            some (FrameworkResult.Error, none)) ∧
        (feas ≠ [] → ∀ resp,
          ahp ⟨feas, getCriteriaForProfile selectedProfile⟩ = Except.ok resp →
          FindBestDistribution feas (some resp) = none →
          NormalizeScoreModel clusterNames M totalReplicas cpuR memR ahp =
            some (FrameworkResult.Error, none)) ∧
        (feas ≠ [] → ∀ resp best,
          ahp ⟨feas, getCriteriaForProfile selectedProfile⟩ = Except.ok resp →
          FindBestDistribution feas (some resp) = some best →
          NormalizeScoreModel clusterNames M totalReplicas cpuR memR ahp =
            some (FrameworkResult.Success,
              some (emitClusterWeights clusterNames best.allocation))))) := by
  constructor
  · intro h
    rw [NormalizeScoreModel, if_pos h]
  · intro h dists feas hg hf
    have hpos : ¬ totalReplicas ≤ 0 := by omega
    refine ⟨?_, ?_, ?_, ?_⟩
    · intro hempty
      subst hempty
      rw [NormalizeScoreModel, if_neg hpos]
      simp [hg, hf]
    · intro hne err herr
      rw [NormalizeScoreModel, if_neg hpos]
      simp only [hg, hf]
      rw [if_neg (by simpa [List.isEmpty_iff] using hne)]
      simp [herr]
    · intro hne resp hok hnone
      rw [NormalizeScoreModel, if_neg hpos]
      simp only [hg, hf]
      rw [if_neg (by simpa [List.isEmpty_iff] using hne)]
      simp [hok, hnone]
    · intro hne resp best hok hbest
      rw [NormalizeScoreModel, if_neg hpos]
      simp only [hg, hf]
      rw [if_neg (by simpa [List.isEmpty_iff] using hne)]
      simp [hok, hbest]

/-- Witness for C9: one replica over the reference clusters with an
unreachable AHP service — the decision fails with Error and no weights. -/
theorem claim_C9_normalize_failure_semantics_witness :
    NormalizeScoreModel ["edge", "fog", "cloud"] refClusterMetrics 1 1000 1073741824
      (fun _ => Except.error "unreachable") = some (FrameworkResult.Error, none) := by
  have hall : ((generateAllDistributions ["edge", "fog", "cloud"] 1).bind
      (filterFeasible refClusterMetrics 1000 1073741824)).map List.isEmpty =
        some false := by decide
  cases hg : generateAllDistributions ["edge", "fog", "cloud"] 1 with
  | none => rw [hg] at hall; simp at hall
  | some dists =>
    rw [hg] at hall
    replace hall : (filterFeasible refClusterMetrics 1000 1073741824 dists).map
        List.isEmpty = some false := hall
    cases hf : filterFeasible refClusterMetrics 1000 1073741824 dists with
    | none => rw [hf] at hall; simp at hall
    | some feas =>
      rw [hf] at hall
      replace hall : feas.isEmpty = false := by simpa using hall
      have hne : feas ≠ [] := by
        intro hemp
        rw [hemp] at hall
        simp at hall
      exact ((claim_C9_normalize_failure_semantics ["edge", "fog", "cloud"]
        refClusterMetrics 1 1000 1073741824 (fun _ => Except.error "unreachable")).2
        (by decide) dists feas hg hf).2.1 hne "unreachable" rfl

end DistributionScorer
